import Mathlib

/-!
# Verification of the 3jscitybuilder pathfinding core

A shallow embedding, in Lean 4, of the grid-based A* pathfinding service
(`PathfindingService`, source revision v3.17.0) and of the priority-based
request scheduler (`PathfindingScheduler`, the revision with priority
upgrade, aging and batched low-priority eviction) of the repository.

Modelling conventions:
* JavaScript numbers are modelled by `JsNum`: an exact rational, `NaN`,
  `+Infinity` or `-Infinity`.  The source stores costs in `Float32Array`s;
  this embedding computes the same arithmetic over exact rationals.
* Mutation of the service object is modelled by explicit state passing:
  every method of the source that mutates `this` returns the new state.
* `performance.now()` is modelled by an explicit clock parameter; a single
  scheduler drain tick is treated as instantaneous (the clock is constant
  during one call).
* JavaScript `Map` (which preserves insertion order) is modelled by an
  association list where `set` of a fresh key appends at the end.
* The string cache keys built by the source are modelled by a structured
  key type whose components are exactly the fields interpolated into the
  string; distinct component tuples give distinct strings in the source, so
  key equality coincides.
-/

set_option maxHeartbeats 1000000
set_option maxRecDepth 8000

namespace CityPath

/-- A JavaScript number: an exact rational, `NaN`, or a signed infinity. -/
inductive JsNum where
  | nan : JsNum
  | inf : JsNum
  | ninf : JsNum
  | q : ℚ → JsNum
deriving DecidableEq, Repr

namespace JsNum

/-- JavaScript addition. -/
def add : JsNum → JsNum → JsNum
  | nan, _ => nan
  | _, nan => nan
  | q a, q b => q (a + b)
  | inf, ninf => nan
  | ninf, inf => nan
  | inf, _ => inf
  | _, inf => inf
  | ninf, _ => ninf
  | _, ninf => ninf

/-- JavaScript subtraction. -/
def sub : JsNum → JsNum → JsNum
  | nan, _ => nan
  | _, nan => nan
  | q a, q b => q (a - b)
  | inf, inf => nan
  | ninf, ninf => nan
  | inf, _ => inf
  | _, inf => ninf
  | ninf, _ => ninf
  | _, ninf => inf

/-- JavaScript multiplication. -/
def mul : JsNum → JsNum → JsNum
  | nan, _ => nan
  | _, nan => nan
  | q a, q b => q (a * b)
  | inf, inf => inf
  | inf, ninf => ninf
  | ninf, inf => ninf
  | ninf, ninf => inf
  | inf, q a => if a > 0 then inf else if a < 0 then ninf else nan
  | q a, inf => if a > 0 then inf else if a < 0 then ninf else nan
  | ninf, q a => if a > 0 then ninf else if a < 0 then inf else nan
  | q a, ninf => if a > 0 then ninf else if a < 0 then inf else nan

/-- JavaScript `Math.abs`. -/
def abs : JsNum → JsNum
  | nan => nan
  | inf => inf
  | ninf => inf
  | q a => q |a|

/-- JavaScript `<` (false whenever an operand is `NaN`). -/
def lt : JsNum → JsNum → Bool
  | nan, _ => false
  | _, nan => false
  | q a, q b => decide (a < b)
  | ninf, ninf => false
  | ninf, _ => true
  | _, ninf => false
  | inf, _ => false
  | _, inf => true

/-- JavaScript `<=` (false whenever an operand is `NaN`). -/
def le : JsNum → JsNum → Bool
  | nan, _ => false
  | _, nan => false
  | q a, q b => decide (a ≤ b)
  | ninf, _ => true
  | _, ninf => false
  | _, inf => true
  | inf, _ => false

/-- JavaScript `>`. -/
def gt (a b : JsNum) : Bool := lt b a

/-- JavaScript `>=`. -/
def ge (a b : JsNum) : Bool := le b a

/-- JavaScript `===` on numbers: `NaN === NaN` is false. -/
def seq : JsNum → JsNum → Bool
  | nan, _ => false
  | _, nan => false
  | a, b => decide (a = b)

/-- JavaScript `Math.floor` (`Rat.floor` is the computable floor; it agrees
with `Int.floor`, see `ratFloor_eq_intFloor`). -/
def floor : JsNum → JsNum
  | nan => nan
  | inf => inf
  | ninf => ninf
  | q a => q (a.floor : ℤ)

/-- JavaScript `Number.isFinite`. -/
def isFinite : JsNum → Bool
  | q _ => true
  | _ => false

/-- `Number.isFinite` applied to an array read that may be `undefined`
(out-of-range or non-canonical index): `Number.isFinite(undefined)` is false. -/
def isFiniteU : Option JsNum → Bool
  | some v => isFinite v
  | none => false

/-- JavaScript `Math.round` of a finite number: round half toward `+∞`. -/
def qround (x : ℚ) : ℤ := (x + 1/2).floor

theorem add_q (a b : ℚ) : add (q a) (q b) = q (a + b) := rfl

theorem lt_q (a b : ℚ) : lt (q a) (q b) = decide (a < b) := rfl

theorem seq_q (a b : ℚ) : seq (q a) (q b) = decide (q a = q b) := rfl

theorem isFinite_iff (v : JsNum) : isFinite v = true ↔ ∃ a : ℚ, v = q a := by
  cases v <;> simp [isFinite]

end JsNum

/-- The computable `Rat.floor` agrees with the order-theoretic `⌊·⌋`. -/
theorem ratFloor_eq_intFloor (a : ℚ) : Rat.floor a = ⌊a⌋ := by
  rw [Rat.floor_def', Rat.floor_def]

/-- A world-space coordinate pair, as the source's `Coordinates` interface. -/
structure Coordinates where
  x : JsNum
  z : JsNum
deriving DecidableEq, Repr

/-- The source's `TileType` enum (entities/Map). -/
inductive TileT where
  | grass | forest | water | mountain
deriving DecidableEq, Repr

/-- The source's `NavigationLayer`: a tile type, or `'ROAD'` / `'BUILDING'`. -/
inductive NavLayer where
  | tile : TileT → NavLayer
  | road : NavLayer
  | building : NavLayer
deriving DecidableEq, Repr

/-- The `COSTS` constant of the source. -/
def COST_ROAD : ℚ := 1/2
def COST_GRASS : ℚ := 1
def COST_FOREST : ℚ := 3/2
def COST_MIN_STEP : ℚ := 1/2

/-- `WEIGHT_MAP` of the source: traversal weight per navigation layer
(`OBSTACLE` is `Infinity`). -/
def weightMap : NavLayer → JsNum
  | .tile .grass => .q COST_GRASS
  | .tile .forest => .q COST_FOREST
  | .tile .water => .inf
  | .tile .mountain => .inf
  | .road => .q COST_ROAD
  | .building => .inf

/-- `EPSILON` of the source. -/
def EPSILON : ℚ := 1/100000

/-- `FLOAT32_SAFE_LIMIT` of the source. -/
def FLOAT32_SAFE_LIMIT : ℚ := 10000000

/-- `MAX_SEARCH_ID` of the source (30 bits). -/
def MAX_SEARCH_ID : Nat := 0x3FFFFFFF

/-- The source's `PathStatus` union type. -/
inductive PathStatus where
  | success | no_path | timeout | invalid_args | aborted | partial_path
deriving DecidableEq, Repr

/-- The source's `PathResult` (the `metrics.duration` wall-clock field is
dropped; `iterations` and `cached` are kept). -/
structure PathResult where
  path : List Coordinates
  status : PathStatus
  iterations : Nat := 0
  cached : Bool := false
deriving DecidableEq, Repr

/-- The source's `PathOptions` bag.  `signal` models an `AbortSignal`:
`none` is an absent signal, `some b` a signal whose `aborted` flag is `b`. -/
structure PathOptions where
  maxIterations : Option Nat := none
  signal : Option Bool := none
  heuristicWeight : Option ℚ := none
  includeStartNode : Option Bool := none
  failToClosest : Option Bool := none
deriving DecidableEq, Repr

/-- `options.signal?.aborted` of the source. -/
def PathOptions.abortedNow (o : PathOptions) : Bool := o.signal.getD false

/-- The components the source interpolates into a valid cache-key string
`"sIdx-eIdx-hW-includeStart-failToClosest-maxIter"`.  Distinct component
tuples produce distinct strings, so structural equality of this record is
string equality of the source's keys. -/
structure PathKey where
  sIdx : JsNum
  eIdx : JsNum
  hWeight : ℚ
  includeStart : Bool
  failToClosest : Bool
  maxIter : Nat
deriving DecidableEq, Repr

/-- A cache/deduplication key: either the `"INV:x,z->x,z"` form built for
unmappable coordinates, or a valid structured key. -/
inductive SKey where
  | inv : JsNum → JsNum → JsNum → JsNum → SKey
  | valid : PathKey → SKey
deriving DecidableEq, Repr

/-- `startsWith('INV:')` of the source. -/
def SKey.isInv : SKey → Bool
  | .inv _ _ _ _ => true
  | .valid _ => false

end CityPath

namespace CityPath

/-! ## JavaScript `Map` as an insertion-ordered association list -/

/-- `Map.get`. -/
def mapGet {K V : Type} [DecidableEq K] : List (K × V) → K → Option V
  | [], _ => none
  | (k, v) :: rest, key => if k = key then some v else mapGet rest key

/-- `Map.set`: replace in place when the key is present (keeping its
position), append otherwise. -/
def mapSet {K V : Type} [DecidableEq K] : List (K × V) → K → V → List (K × V)
  | [], key, v => [(key, v)]
  | (k, w) :: rest, key, v =>
      if k = key then (k, v) :: rest else (k, w) :: mapSet rest key v

/-- `Map.delete`. -/
def mapDelete {K V : Type} [DecidableEq K] : List (K × V) → K → List (K × V)
  | [], _ => []
  | (k, w) :: rest, key =>
      if k = key then rest else (k, w) :: mapDelete rest key

/-! ## The pathfinding service state -/

/-- A cached path together with the grid version at which it was computed. -/
structure CacheEntry where
  path : List Coordinates
  version : Nat
deriving DecidableEq, Repr

/-- One binary-heap slot of `FlatMinHeap`: parallel `indices`/`f`/`g`
entries at the same position. -/
structure HeapEntry where
  idx : Nat
  f : JsNum
  g : JsNum
deriving DecidableEq, Repr

/-- `FlatMinHeap`: the live prefix of the three parallel arrays, plus the
fixed capacity beyond which `push` silently drops. -/
structure Heap where
  entries : List HeapEntry
  capacity : Nat
deriving DecidableEq, Repr

/-- The per-search scratch buffers (`ComputeBuffers`).  The typed arrays are
modelled as total functions from index; the `neighbors` scratch array is
modelled by returning the neighbor list directly. -/
structure Buffers where
  gScore : Nat → JsNum
  parentIndex : Nat → Int
  nodeTags : Nat → Nat
  heap : Heap

/-- The mutable fields of `PathfindingService`. -/
structure PFState where
  grid : List JsNum
  size : Nat
  totalTiles : Nat
  halfSize : Nat
  gridVersion : Nat
  minStepCost : ℚ
  globalSearchId : Nat
  startGridX : JsNum
  startGridZ : JsNum
  pathCache : List (PathKey × CacheEntry)
  maxCacheSize : Nat
  bufferPool : List Buffers
  maxPoolSize : Nat
  activeSearches : Nat
  cacheHits : Nat
  cacheMisses : Nat
  defaultMaxIterations : Nat

/-- The freshly constructed service (`new PathfindingService()`). -/
def initService : PFState where
  grid := []
  size := 0
  totalTiles := 0
  halfSize := 0
  gridVersion := 0
  minStepCost := COST_MIN_STEP
  globalSearchId := 0
  startGridX := .q 0
  startGridZ := .q 0
  pathCache := []
  maxCacheSize := 2000
  bufferPool := []
  maxPoolSize := 4
  activeSearches := 0
  cacheHits := 0
  cacheMisses := 0
  defaultMaxIterations := 10000

/-- `toGridX`: `Math.floor(worldX + 0.5) + this.halfSize`. -/
def toGridX (st : PFState) (worldX : JsNum) : JsNum :=
  (worldX.add (.q (1/2))).floor.add (.q st.halfSize)

/-- `toGridZ`. -/
def toGridZ (st : PFState) (worldZ : JsNum) : JsNum :=
  (worldZ.add (.q (1/2))).floor.add (.q st.halfSize)

/-- `toIndex`: `-1` when either grid axis falls outside `[0, size)`.  A `NaN`
coordinate fails both range comparisons and flows through, producing a `NaN`
index. -/
def toIndex (st : PFState) (worldX worldZ : JsNum) : JsNum :=
  let gx := toGridX st worldX
  let gz := toGridZ st worldZ
  if gx.lt (.q 0) || gx.ge (.q st.size) || gz.lt (.q 0) || gz.ge (.q st.size) then
    .q (-1)
  else
    (gz.mul (.q st.size)).add gx

/-- The canonical array indices of a `Float32Array` of length `len`: index
reads/writes take effect only at an integer index inside `[0, len)`. -/
def canonIdx (len : Nat) : JsNum → Option Nat
  | .q v => if 0 ≤ v.num ∧ v.den = 1 ∧ v.num < len then some v.num.toNat else none
  | _ => none

/-- Reading `this.grid[idx]`: `none` models JavaScript `undefined`. -/
def gridRead (st : PFState) (idx : JsNum) : Option JsNum :=
  (canonIdx st.grid.length idx).bind fun n => st.grid.get? n

/-- Writing `this.grid[idx] = w`: a typed-array write at a non-canonical
index (for instance `NaN`) is silently ignored. -/
def gridWrite (grid : List JsNum) (idx : JsNum) (w : JsNum) : List JsNum :=
  match canonIdx grid.length idx with
  | some n => grid.set n w
  | none => grid

/-- `value !== weight` where the left side may be `undefined`. -/
def strictNeqU : Option JsNum → JsNum → Bool
  | none, _ => true
  | some v, w => !(JsNum.seq v w)

/-- `getWeightByType`: `WEIGHT_MAP[type] ?? COSTS.GRASS`. -/
def getWeightByType (t : NavLayer) : JsNum := weightMap t

/-- `getPathKey` of the source, with the key string replaced by the
structured `SKey`. -/
def getPathKey (st : PFState) (s e : Coordinates) (o : PathOptions) : SKey :=
  let sIdx := toIndex st s.x s.z
  let eIdx := toIndex st e.x e.z
  if sIdx.seq (.q (-1)) || eIdx.seq (.q (-1)) then
    .inv s.x s.z e.x e.z
  else
    .valid
      { sIdx := sIdx
        eIdx := eIdx
        hWeight := (JsNum.qround ((o.heuristicWeight.getD 1) * 1000) : ℚ) / 1000
        includeStart := o.includeStartNode.getD false
        failToClosest := o.failToClosest.getD false
        maxIter := o.maxIterations.getD st.defaultMaxIterations }

/-- `checkCache`: returns a copy of the cached path when the stored version
matches the current grid version, promoting the entry to most recently used
and counting a hit; otherwise a miss that leaves the state unchanged. -/
def checkCache (st : PFState) (s e : Coordinates) (o : PathOptions) :
    Option PathResult × PFState :=
  match getPathKey st s e o with
  | .inv _ _ _ _ => (none, st)
  | .valid k =>
    match mapGet st.pathCache k with
    | some entry =>
      if entry.version = st.gridVersion then
        (some { path := entry.path, status := .success, iterations := 0, cached := true },
         { st with
            cacheHits := st.cacheHits + 1
            pathCache := mapSet (mapDelete st.pathCache k) k entry })
      else (none, st)
    | none => (none, st)

/-- `updateNode` of the source (revision v3.17.0): an O(1) point update that
bumps the version only when the stored value actually changes.  A `NaN`
index slips past the `idx === -1` guard: the typed-array write is ignored
but the version is still bumped (the `undefined !== weight` comparison is
true). -/
def updateNode (st : PFState) (x z : JsNum) (t : NavLayer) (occupied : Bool) :
    PFState :=
  let idx := toIndex st x z
  if idx.seq (.q (-1)) then st
  else
    let weight := if occupied then JsNum.inf else getWeightByType t
    if strictNeqU (gridRead st idx) weight then
      { st with
          grid := gridWrite st.grid idx weight
          gridVersion := st.gridVersion + 1 }
    else st

/-- `isWalkable`. -/
def isWalkable (st : PFState) (x z : JsNum) : Bool :=
  let idx := toIndex st x z
  if idx.seq (.q (-1)) then false
  else JsNum.isFiniteU (gridRead st idx)

/-- A tile supplied by the store (`TileData`): world coordinates, terrain
type, and whether something occupies it (`occupiedBy` truthiness). -/
structure TileD where
  x : JsNum
  z : JsNum
  type : TileT
  occupied : Bool

/-- `syncWithStore`: rebuilds the whole grid (everything outside the tile
list is `OBSTACLE`), recomputes the minimum finite step cost from
`WEIGHT_MAP`, clears the buffer pool and the cache, and bumps the version. -/
def syncWithStore (st : PFState) (tiles : List TileD) (size : Nat) : PFState :=
  let totalTiles := size * size
  let halfSize := size / 2
  let base : PFState :=
    { st with
        size := size
        totalTiles := totalTiles
        halfSize := halfSize
        grid := List.replicate totalTiles JsNum.inf }
  let grid := tiles.foldl
    (fun g tile =>
      let idx := toIndex { base with grid := g } tile.x tile.z
      if idx.seq (.q (-1)) then g
      else
        let weight := if tile.occupied then JsNum.inf else getWeightByType (.tile tile.type)
        gridWrite g idx weight)
    base.grid
  let costs : List ℚ := [COST_GRASS, COST_FOREST, COST_ROAD]
  let minStep := costs.foldl min COST_GRASS
  { base with
      grid := grid
      minStepCost := minStep
      bufferPool := []
      gridVersion := st.gridVersion + 1
      pathCache := []
      globalSearchId := 0
      cacheHits := 0
      cacheMisses := 0 }

end CityPath

namespace CityPath

/-! ## `FlatMinHeap` -/

/-- The tie-break constant `0.00001` added per unit of cross-product. -/
def CROSS_TIE : ℚ := 1/100000

/-- Reading heap slot `i` (in-range for every access the source makes). -/
def hGet (l : List HeapEntry) (i : Nat) : HeapEntry :=
  l.getD i ⟨0, .q 0, .q 0⟩

/-- `swap(i, j)` over the three parallel arrays. -/
def hSwap (l : List HeapEntry) (i j : Nat) : List HeapEntry :=
  (l.set i (hGet l j)).set j (hGet l i)

/-- `bubbleUp`, with explicit fuel (the index strictly decreases, so any
fuel at least the starting index runs the loop to completion). -/
def bubbleUpF : Nat → List HeapEntry → Nat → List HeapEntry
  | 0, l, _ => l
  | fuel+1, l, idx =>
    if idx = 0 then l
    else
      let parentIdx := (idx - 1) / 2
      let cf := (hGet l idx).f
      let pf := (hGet l parentIdx).f
      if cf.gt (pf.add (.q EPSILON)) then l
      else if (cf.sub pf).abs.lt (.q EPSILON) && (hGet l idx).g.le (hGet l parentIdx).g then l
      else bubbleUpF fuel (hSwap l idx parentIdx) parentIdx

/-- `sinkDown`, with explicit fuel (the index strictly increases toward
`len`, so fuel `len` suffices). -/
def sinkDownF : Nat → Nat → List HeapEntry → Nat → List HeapEntry
  | 0, _, l, _ => l
  | fuel+1, len, l, idx =>
    if idx < len / 2 then
      let left := 2 * idx + 1
      let right := left + 1
      let bf := (hGet l idx).f
      let lf := (hGet l left).f
      let swapLeft := lf.lt (bf.sub (.q EPSILON)) ||
        ((lf.sub bf).abs.lt (.q EPSILON) && (hGet l left).g.gt (hGet l idx).g)
      let best := if swapLeft then left else idx
      let best :=
        if right < len then
          let rf := (hGet l right).f
          let bestF := (hGet l best).f
          let swapRight := rf.lt (bestF.sub (.q EPSILON)) ||
            ((rf.sub bestF).abs.lt (.q EPSILON) && (hGet l right).g.gt (hGet l best).g)
          if swapRight then right else best
        else best
      if best = idx then l
      else sinkDownF fuel len (hSwap l idx best) best
    else l

/-- `FlatMinHeap.push`: silently drops when the heap is at capacity. -/
def Heap.push (h : Heap) (index : Nat) (fVal gVal : JsNum) : Heap :=
  if h.capacity ≤ h.entries.length then h
  else
    let l := h.entries ++ [⟨index, fVal, gVal⟩]
    { h with entries := bubbleUpF l.length l (l.length - 1) }

/-- `FlatMinHeap.pop`: removes the root, moves the last slot to the root
and sinks it down. -/
def Heap.pop (h : Heap) : Option (HeapEntry × Heap) :=
  match h.entries with
  | [] => none
  | top :: rest =>
    match rest with
    | [] => some (top, { h with entries := [] })
    | _ :: _ =>
      let len := rest.length
      let last := rest.getLastD top
      let l := last :: rest.dropLast
      some (top, { h with entries := sinkDownF l.length len l 0 })

/-- `FlatMinHeap.isEmpty`. -/
def Heap.isEmpty (h : Heap) : Bool := h.entries.isEmpty

/-- `FlatMinHeap.clear`. -/
def Heap.clear (h : Heap) : Heap := { h with entries := [] }

/-! ## Buffer pool -/

/-- `createBuffers(size)`: all typed arrays are zero-initialised. -/
def createBuffers (size : Nat) : Buffers where
  gScore := fun _ => .q 0
  parentIndex := fun _ => 0
  nodeTags := fun _ => 0
  heap := { entries := [], capacity := size }

/-- `acquireBuffers`: pop from the pool (JavaScript `Array.pop` takes the
last element) or create a fresh set sized `size * size`. -/
def acquireBuffers (st : PFState) : Buffers × PFState :=
  let st' := { st with activeSearches := st.activeSearches + 1 }
  match st'.bufferPool with
  | [] => (createBuffers (st'.size * st'.size), st')
  | b :: bs =>
    (((b :: bs).getLastD b),
     { st' with bufferPool := (b :: bs).dropLast })

/-- `releaseBuffers`: return to the pool while under the capacity bound. -/
def releaseBuffers (st : PFState) (b : Buffers) : PFState :=
  let st' := { st with activeSearches := st.activeSearches - 1 }
  if st'.bufferPool.length < st'.maxPoolSize then
    { st' with bufferPool := st'.bufferPool ++ [b] }
  else st'

/-! ## The A* search -/

/-- `fillNeighborsBuffer`: the 4-neighborhood in index space, in the
source's fill order. -/
def neighborList (size total idx : Nat) : List Nat :=
  (if 0 < idx % size then [idx - 1] else []) ++
  (if idx % size < size - 1 then [idx + 1] else []) ++
  (if size ≤ idx then [idx - size] else []) ++
  (if idx < total - size then [idx + size] else [])

/-- The world coordinates of grid cell `idx` (`toWorldX`/`toWorldZ` applied
to `idx % size` and `(idx / size) | 0`). -/
def mkCoord (size halfSize idx : Nat) : Coordinates :=
  ⟨.q (((idx % size : ℤ) - halfSize : ℤ)), .q (((idx / size : ℤ) - halfSize : ℤ))⟩

/-- The predecessor walk of `reconstructPath`, with the source's `safety`
counter modelled as fuel (`maxLen = totalTiles`).  A stale generation tag
ends the walk; reading a tag outside the array yields `undefined`, whose
`>>> 2` is `0`. -/
def reconWalk (size halfSize total : Nat) (tags : Nat → Nat) (par : Nat → Int)
    (searchId : Nat) : Int → Nat → List Coordinates
  | _, 0 => []
  | curr, fuel+1 =>
    if curr = -1 then []
    else
      let tagVal := if 0 ≤ curr ∧ curr < (total : Int) then tags curr.toNat else 0
      if tagVal / 4 ≠ searchId then []
      else
        let c := curr.toNat
        mkCoord size halfSize c ::
          reconWalk size halfSize total tags par searchId (par c) fuel

/-- `reconstructPath`: walk the predecessor links, reverse, and drop the
first element unless `includeStart`. -/
def reconstructPath (size halfSize total : Nat) (par : Nat → Int)
    (includeStart : Bool) (tags : Nat → Nat) (searchId : Nat) (endIdx : Nat) :
    List Coordinates :=
  let path := (reconWalk size halfSize total tags par searchId endIdx total).reverse
  if !includeStart && 0 < path.length then path.drop 1 else path

/-- The loop-invariant environment of one `calculateAStar` call.  `endIdx`
is `none` when the goal index is `NaN` (reachable via a `NaN` end
coordinate under `failToClosest`); `exq`/`ezq` and the precomputed
tie-break deltas are then `NaN` too, exactly as in the source. -/
structure AStarEnv where
  size : Nat
  totalTiles : Nat
  halfSize : Nat
  grid : List JsNum
  minStep : ℚ
  startIdx : Nat
  endIdx : Option Nat
  maxIterations : Nat
  heuristicWeight : ℚ
  includeStart : Bool
  failToClosest : Bool
  currentId : Nat
  signalAborted : Bool
  exq : JsNum
  ezq : JsNum
  sgx : JsNum
  sgz : JsNum
  dx1 : JsNum
  dz1 : JsNum

/-- The mutable state of the search loop. -/
structure LoopState where
  gScore : Nat → JsNum
  parentIndex : Nat → Int
  nodeTags : Nat → Nat
  heap : Heap
  closestNodeIdx : Nat
  minH : JsNum

/-- The value `calculateAStar` returns before `findPathSync` adds metrics. -/
structure AResult where
  path : List Coordinates
  status : PathStatus
  iterations : Nat
deriving DecidableEq, Repr

/-- The code after the search loop: the `failToClosest` fallback, else
`timeout`/`no_path` according to the iteration budget. -/
def postLoop (env : AStarEnv) (iterations : Nat) (s : LoopState) : AResult :=
  if env.failToClosest then
    if s.closestNodeIdx = env.startIdx then
      { path := [], status := .no_path, iterations := iterations }
    else
      { path := reconstructPath env.size env.halfSize env.totalTiles s.parentIndex
          env.includeStart s.nodeTags env.currentId s.closestNodeIdx,
        status := .partial_path, iterations := iterations }
  else
    { path := [],
      status := if env.maxIterations < iterations then .timeout else .no_path,
      iterations := iterations }

/-- The body of the neighbor loop for one neighbor index. -/
def relaxNeighbor (env : AStarEnv) (currentIdx : Nat) (curG : JsNum)
    (s : LoopState) (nIdx : Nat) : LoopState :=
  let nTag := s.nodeTags nIdx
  if nTag / 4 = env.currentId ∧ nTag % 4 = 2 then s
  else
    let weight := env.grid.getD nIdx .nan
    if !weight.isFinite then s
    else
      let s :=
        if nTag / 4 ≠ env.currentId then
          { s with
              gScore := Function.update s.gScore nIdx .inf
              parentIndex := Function.update s.parentIndex nIdx (-1) }
        else s
      let tentativeG := curG.add weight
      if tentativeG.gt (.q FLOAT32_SAFE_LIMIT) then s
      else if tentativeG.lt (s.gScore nIdx) then
        let s :=
          { s with
              parentIndex := Function.update s.parentIndex nIdx (currentIdx : Int)
              gScore := Function.update s.gScore nIdx tentativeG }
        let nx := nIdx % env.size
        let nz := nIdx / env.size
        let hBase := (((JsNum.q nx).sub env.exq).abs.add
          (((JsNum.q nz).sub env.ezq)).abs).mul (.q env.minStep)
        let dx2 := (JsNum.q nx).sub env.sgx
        let dz2 := (JsNum.q nz).sub env.sgz
        let cross := ((env.dx1.mul dz2).sub (dx2.mul env.dz1)).abs
        let h := hBase.add (cross.mul (.q CROSS_TIE))
        let f := tentativeG.add (h.mul (.q env.heuristicWeight))
        let s := { s with heap := s.heap.push nIdx f tentativeG }
        { s with nodeTags := Function.update s.nodeTags nIdx (env.currentId * 4 + 1) }
      else s

/-- The `while (!heap.isEmpty())` loop of `calculateAStar`.  The fuel is at
least `maxIterations + 2`, so the source's own iteration-budget break fires
before the fuel runs out; the fuel-exhausted branch returns the same
post-loop value it would on a budget break. -/
def aLoop (env : AStarEnv) : Nat → Nat → LoopState → AResult × LoopState
  | 0, iterations, s => (postLoop env iterations s, s)
  | fuel+1, iterations, s =>
    if s.heap.isEmpty then (postLoop env iterations s, s)
    else
      let iterations := iterations + 1
      if env.signalAborted then
        ({ path := [], status := .aborted, iterations := iterations }, s)
      else if env.maxIterations < iterations then (postLoop env iterations s, s)
      else
        match s.heap.pop with
        | none => (postLoop env iterations s, s)
        | some (current, heap) =>
          let s := { s with heap := heap }
          let currentIdx := current.idx
          let tagVal := s.nodeTags currentIdx
          if tagVal / 4 = env.currentId ∧
              (tagVal % 4 = 2 ∨ current.g.gt (s.gScore currentIdx) = true) then
            aLoop env fuel iterations s
          else
            let s :=
              if env.failToClosest then
                let cX := currentIdx % env.size
                let cZ := currentIdx / env.size
                let h := (((JsNum.q cX).sub env.exq).abs.add
                  (((JsNum.q cZ).sub env.ezq)).abs).mul (.q env.minStep)
                if h.lt s.minH then { s with minH := h, closestNodeIdx := currentIdx }
                else s
              else s
            let s := { s with
              nodeTags := Function.update s.nodeTags currentIdx (env.currentId * 4 + 2) }
            let isGoal : Bool :=
              match env.endIdx with | some e => decide (currentIdx = e) | none => false
            if isGoal then
              ({ path := reconstructPath env.size env.halfSize env.totalTiles
                    s.parentIndex env.includeStart s.nodeTags env.currentId currentIdx,
                 status := .success, iterations := iterations }, s)
            else
              let s := (neighborList env.size env.totalTiles currentIdx).foldl
                (relaxNeighbor env currentIdx current.g) s
              aLoop env fuel iterations s

/-- `calculateAStar`: generation bump (with the overflow reset), explicit
start-node initialisation, and the search loop.  Returns the result, the
state (the bumped `globalSearchId`), and the final buffers. -/
def calculateAStar (st : PFState) (startIdx : Nat) (endIdx : Option Nat)
    (maxIterations : Nat) (heuristicWeight : ℚ) (includeStart failToClosest : Bool)
    (bufs : Buffers) (signalAborted : Bool) : AResult × PFState × Buffers :=
  let gsid0 := st.globalSearchId + 1
  let reset := MAX_SEARCH_ID ≤ gsid0
  let gsid := if reset then 1 else gsid0
  let bufs :=
    if reset then
      { bufs with
          nodeTags := fun _ => 0
          gScore := fun _ => .inf
          parentIndex := fun _ => -1 }
    else bufs
  let st := { st with globalSearchId := gsid }
  let currentId := gsid
  let size := st.size
  let sx := startIdx % size
  let sz := startIdx / size
  let exq : JsNum := match endIdx with | some e => .q ((e % size : Nat) : ℚ) | none => .nan
  let ezq : JsNum := match endIdx with | some e => .q ((e / size : Nat) : ℚ) | none => .nan
  let initH := (((JsNum.q sx).sub exq).abs.add
    (((JsNum.q sz).sub ezq)).abs).mul (.q st.minStepCost)
  let env : AStarEnv :=
    { size := size
      totalTiles := st.totalTiles
      halfSize := st.halfSize
      grid := st.grid
      minStep := st.minStepCost
      startIdx := startIdx
      endIdx := endIdx
      maxIterations := maxIterations
      heuristicWeight := heuristicWeight
      includeStart := includeStart
      failToClosest := failToClosest
      currentId := currentId
      signalAborted := signalAborted
      exq := exq
      ezq := ezq
      sgx := st.startGridX
      sgz := st.startGridZ
      dx1 := exq.sub st.startGridX
      dz1 := ezq.sub st.startGridZ }
  let s0 : LoopState :=
    { gScore := Function.update bufs.gScore startIdx (.q 0)
      parentIndex := Function.update bufs.parentIndex startIdx (-1)
      nodeTags := Function.update bufs.nodeTags startIdx (currentId * 4 + 1)
      heap := (bufs.heap.clear).push startIdx (initH.mul (.q heuristicWeight)) (.q 0)
      closestNodeIdx := startIdx
      minH := .inf }
  let (res, sF) := aLoop env (maxIterations + 2) 0 s0
  (res, st,
   { gScore := sF.gScore
     parentIndex := sF.parentIndex
     nodeTags := sF.nodeTags
     heap := sF.heap })

/-- The inline version-checked cache lookup at the top of `findPathSync`. -/
def cacheProbe (st : PFState) (key : SKey) : Option CacheEntry :=
  match key with
  | .inv _ _ _ _ => none
  | .valid k =>
    match mapGet st.pathCache k with
    | some entry => if entry.version = st.gridVersion then some entry else none
    | none => none

/-- `findPathSync` of the source (revision v3.17.0). -/
def findPathSync (st : PFState) (s e : Coordinates) (o : PathOptions) :
    PathResult × PFState :=
  let cacheKey := getPathKey st s e o
  match cacheProbe st cacheKey with
  | some entry =>
    ({ path := entry.path, status := .success, iterations := 0, cached := true },
     match cacheKey with
     | .valid k =>
       { st with
           cacheHits := st.cacheHits + 1
           pathCache := mapSet (mapDelete st.pathCache k) k entry }
     | .inv _ _ _ _ => st)
  | none =>
  if o.abortedNow then ({ path := [], status := .aborted }, st)
  else
  let sIdx := toIndex st s.x s.z
  let eIdx := toIndex st e.x e.z
  if sIdx.seq (.q (-1)) || eIdx.seq (.q (-1)) then
    ({ path := [], status := .invalid_args }, st)
  else
  let st := { st with startGridX := toGridX st s.x, startGridZ := toGridZ st s.z }
  let includeStart := o.includeStartNode.getD false
  if sIdx.seq eIdx then
    ({ path := if includeStart then [e] else [], status := .success, iterations := 0 }, st)
  else
  let failToClosest := o.failToClosest.getD false
  match canonIdx st.grid.length sIdx with
  | none => ({ path := [], status := .no_path }, st)
  | some sN =>
    if !(JsNum.isFiniteU (st.grid.get? sN)) then ({ path := [], status := .no_path }, st)
    else
    let eC := canonIdx st.grid.length eIdx
    if !failToClosest && !(JsNum.isFiniteU (eC.bind fun n => st.grid.get? n)) then
      ({ path := [], status := .no_path }, st)
    else
    let st := { st with cacheMisses := st.cacheMisses + 1 }
    let acq := acquireBuffers st
    let bufs := acq.1
    let st := acq.2
    let safetyLimit := max (st.totalTiles * 2) 50000
    let maxIter := min (o.maxIterations.getD st.defaultMaxIterations) safetyLimit
    let hW := o.heuristicWeight.getD 1
    let run := calculateAStar st sN eC maxIter hW includeStart failToClosest bufs o.abortedNow
    let result := run.1
    let st := run.2.1
    let bufs := run.2.2
    let st :=
      if result.status = .success then
        match cacheKey with
        | .valid k =>
          let st :=
            if st.maxCacheSize ≤ st.pathCache.length then
              { st with pathCache := st.pathCache.drop 1 }
            else st
          { st with pathCache := mapSet st.pathCache k ⟨result.path, st.gridVersion⟩ }
        | .inv _ _ _ _ => st
      else st
    let st := releaseBuffers st bufs
    ({ path := result.path, status := result.status,
       iterations := result.iterations, cached := false }, st)

end CityPath

namespace CityPath

/-! ## The request scheduler (`PathfindingScheduler`, priority-upgrade
revision)

The scheduler's three calls into the pathfinding service (`checkCache`,
`getPathKey`, `findPathSync`) are abstracted into a `SchedEnv` of plain
functions, and the number of `findPathSync` invocations is counted — the
counting stub the spec itself prescribes for the deduplication property.
Promise settlement is modelled by an append-only outcome log keyed by
request identity. -/

/-- `Priority` of the source: `HIGH = 0`, `MEDIUM = 1`, `LOW = 2`. -/
inductive Priority where
  | high | medium | low
deriving DecidableEq, Repr

/-- The numeric value of the enum member (used by `<` comparisons). -/
def Priority.rank : Priority → Nat
  | .high => 0
  | .medium => 1
  | .low => 2

/-- `MAX_QUEUE_SIZE` of the source. -/
def MAX_QUEUE_SIZE : Nat := 1000

/-- `MAX_WAIT_TIME` of the source (milliseconds). -/
def MAX_WAIT_TIME : ℚ := 2000

/-- A queued `PathRequest` (the promise and its resolvers are modelled by
the request's identity in the outcome log). -/
structure SReq where
  key : SKey
  start : Coordinates
  endc : Coordinates
  options : PathOptions
  priority : Priority
  timestamp : ℚ
deriving DecidableEq, Repr

/-- How a request's promise settles. -/
inductive SOutcome where
  | resolved : PathResult → SOutcome
  | rejQueueFull : SOutcome
  | rejDroppedForPriority : SOutcome
  | rejAborted : SOutcome
  | rejAging : SOutcome
deriving DecidableEq, Repr

/-- The scheduler state: request objects by identity, the three priority
queues (of identities), the deduplication map, and the settlement log. -/
structure Sched where
  reqs : List (Nat × SReq)
  qhigh : List Nat
  qmed : List Nat
  qlow : List Nat
  pending : List (SKey × Nat)
  nextId : Nat
  processedCount : Nat
  droppedCount : Nat
  outcomes : List (Nat × SOutcome)
  engineCalls : Nat
deriving DecidableEq, Repr

/-- The freshly constructed scheduler. -/
def initSched : Sched :=
  { reqs := [], qhigh := [], qmed := [], qlow := [], pending := [],
    nextId := 0, processedCount := 0, droppedCount := 0, outcomes := [],
    engineCalls := 0 }

/-- `this.queues.get(priority)`. -/
def Sched.queueOf (st : Sched) : Priority → List Nat
  | .high => st.qhigh
  | .medium => st.qmed
  | .low => st.qlow

/-- Replacing one priority's queue. -/
def Sched.setQueue (st : Sched) : Priority → List Nat → Sched
  | .high, l => { st with qhigh := l }
  | .medium, l => { st with qmed := l }
  | .low, l => { st with qlow := l }

/-- `getTotalQueueSize`. -/
def Sched.totalQueueSize (st : Sched) : Nat :=
  st.qhigh.length + st.qmed.length + st.qlow.length

/-- The service functions the scheduler calls, abstracted (for the
deduplication claim the engine is a counting stub, as the spec asks). -/
structure SchedEnv where
  cacheFn : Coordinates → Coordinates → PathOptions → Option PathResult
  keyFn : Coordinates → Coordinates → PathOptions → SKey
  engine : Coordinates → Coordinates → PathOptions → PathResult

/-- What `requestPath` hands back to the caller. -/
inductive RPOut where
  | immediate : PathResult → RPOut
  | promiseOf : Nat → RPOut
  | rejectedNow : SOutcome → RPOut
deriving DecidableEq, Repr

/-- `dropLowPriorityBatch(count)`: shift and reject up to `count` oldest
low-priority requests; `false` when the low queue was empty. -/
def dropLowBatch (st : Sched) (count : Nat) : Bool × Sched :=
  if st.qlow.length = 0 then (false, st)
  else
    let toDrop := min count st.qlow.length
    let dropped := st.qlow.take toDrop
    let st' := dropped.foldl
      (fun acc id =>
        { acc with
            outcomes := acc.outcomes ++ [(id, SOutcome.rejDroppedForPriority)]
            pending :=
              match mapGet acc.reqs id with
              | some r => mapDelete acc.pending r.key
              | none => acc.pending
            droppedCount := acc.droppedCount + 1 })
      st
    (true, { st' with qlow := st'.qlow.drop toDrop })

/-- Appending a fresh request at its tier (`queues.get(priority).push` then
`pendingRequests.set`). -/
def enqueueReq (st : Sched) (key : SKey) (s e : Coordinates)
    (priority : Priority) (options : PathOptions) (now : ℚ) : RPOut × Sched :=
  let id := st.nextId
  let req : SReq :=
    { key := key, start := s, endc := e, options := options,
      priority := priority, timestamp := now }
  let st := { st with reqs := mapSet st.reqs id req, nextId := id + 1 }
  let st := st.setQueue priority (st.queueOf priority ++ [id])
  (.promiseOf id, { st with pending := mapSet st.pending key id })

/-- `requestPath` of the source: cache check, deduplication with priority
upgrade (and relocation to the new tier's queue), then the queue-limit
policy and enqueueing. -/
def requestPath (env : SchedEnv) (now : ℚ) (st : Sched) (s e : Coordinates)
    (priority : Priority) (options : PathOptions) : RPOut × Sched :=
  match env.cacheFn s e options with
  | some cached => (.immediate cached, st)
  | none =>
    let key := env.keyFn s e options
    match mapGet st.pending key with
    | some exId =>
      match mapGet st.reqs exId with
      | some exReq =>
        if priority.rank < exReq.priority.rank then
          let st := st.setQueue exReq.priority ((st.queueOf exReq.priority).erase exId)
          let st := { st with reqs := mapSet st.reqs exId { exReq with priority := priority } }
          let st := st.setQueue priority (st.queueOf priority ++ [exId])
          (.promiseOf exId, st)
        else (.promiseOf exId, st)
      | none => (.promiseOf exId, st)
    | none =>
      if MAX_QUEUE_SIZE ≤ st.totalQueueSize then
        match priority with
        | .high =>
          let st := (dropLowBatch st 5).2
          enqueueReq st key s e priority options now
        | .medium =>
          let r := dropLowBatch st 1
          if r.1 then enqueueReq r.2 key s e priority options now
          else (.rejectedNow .rejQueueFull, r.2)
        | .low =>
          (.rejectedNow .rejQueueFull, { st with droppedCount := st.droppedCount + 1 })
      else enqueueReq st key s e priority options now

/-- The `while (queue.length > 0)` body of `processQueue` for one tier.
The fuel is the tier's queue length at entry (every step shifts the head).
The returned flag is `true` when the budget check fired (the source's
early `return`). -/
def drainTier (env : SchedEnv) (now budget : ℚ) (tier : Priority) :
    Nat → Sched → Nat → Sched × Nat × Bool
  | 0, st, processed => (st, processed, false)
  | fuel+1, st, processed =>
    match st.queueOf tier with
    | [] => (st, processed, false)
    | id :: restQ =>
      if budget < 0 then (st, processed, true)
      else
        match mapGet st.reqs id with
        | none => drainTier env now budget tier fuel (st.setQueue tier restQ) processed
        | some req =>
          if tier ≠ .high ∧ MAX_WAIT_TIME < now - req.timestamp then
            let st := st.setQueue tier restQ
            let st :=
              { st with
                  outcomes := st.outcomes ++ [(id, SOutcome.rejAging)]
                  pending := mapDelete st.pending req.key
                  droppedCount := st.droppedCount + 1 }
            drainTier env now budget tier fuel st processed
          else if req.options.abortedNow then
            let st := st.setQueue tier restQ
            let st :=
              { st with
                  outcomes := st.outcomes ++ [(id, SOutcome.rejAborted)]
                  pending := mapDelete st.pending req.key }
            drainTier env now budget tier fuel st processed
          else
            let result := env.engine req.start req.endc req.options
            let st := st.setQueue tier restQ
            let st :=
              { st with
                  engineCalls := st.engineCalls + 1
                  outcomes := st.outcomes ++ [(id, SOutcome.resolved result)] }
            let st :=
              if mapGet st.pending req.key = some id then
                { st with pending := mapDelete st.pending req.key }
              else st
            drainTier env now budget tier fuel st (processed + 1)

/-- `processQueue(budgetMs)` of the source, under the constant-clock model
(a drain tick is instantaneous, so the budget check
`performance.now() - startTime > budgetMs` is `0 > budgetMs`). -/
def processQueue (env : SchedEnv) (now budget : ℚ) (st : Sched) : Sched :=
  match drainTier env now budget .high (st.queueOf .high).length st 0 with
  | (st1, _, true) => st1
  | (st1, p1, false) =>
    match drainTier env now budget .medium (st1.queueOf .medium).length st1 p1 with
    | (st2, _, true) => st2
    | (st2, p2, false) =>
      match drainTier env now budget .low (st2.queueOf .low).length st2 p2 with
      | (st3, _, true) => st3
      | (st3, p3, false) =>
        if 0 < p3 then { st3 with processedCount := st3.processedCount + p3 }
        else st3

end CityPath

namespace CityPath

/-! ## Basic lemmas about indices, maps and the grid -/

theorem seq_qq (a b : ℚ) : JsNum.seq (.q a) (.q b) = decide (a = b) := by
  have h : JsNum.seq (.q a) (.q b) = decide (JsNum.q a = JsNum.q b) := rfl
  rw [h]
  apply decide_eq_decide.mpr
  simp

theorem canonIdx_some {len : Nat} {j : JsNum} {n : Nat}
    (h : canonIdx len j = some n) : j = .q (n : ℚ) ∧ n < len := by
  cases j with
  | q v =>
    simp only [canonIdx] at h
    split at h
    · rename_i hc
      obtain ⟨h0, hden, hlt⟩ := hc
      injection h with h
      subst h
      have hv : ((v.num : ℚ)) = v := (Rat.den_eq_one_iff v).mp hden
      have h2 : ((v.num.toNat : ℤ)) = v.num := Int.toNat_of_nonneg h0
      constructor
      · rw [JsNum.q.injEq, ← hv]
        exact_mod_cast h2.symm
      · omega
    · cases h
  | nan => simp [canonIdx] at h
  | inf => simp [canonIdx] at h
  | ninf => simp [canonIdx] at h

theorem canonIdx_natCast (len n : Nat) :
    canonIdx len (.q (n : ℚ)) = if n < len then some n else none := by
  by_cases h : n < len
  · rw [if_pos h]
    simp only [canonIdx, Rat.num_natCast, Rat.den_natCast, Int.toNat_natCast]
    rw [if_pos]
    exact ⟨by positivity, trivial, by exact_mod_cast h⟩
  · rw [if_neg h]
    simp only [canonIdx, Rat.num_natCast, Rat.den_natCast, Int.toNat_natCast]
    rw [if_neg]
    intro hc
    exact h (by exact_mod_cast hc.2.2)

theorem seq_q_natCast_neg_one (n : Nat) :
    JsNum.seq (.q (n : ℚ)) (.q (-1)) = false := by
  rw [seq_qq]
  simp only [decide_eq_false_iff_not]
  intro h
  have h0 : (0:ℚ) ≤ (n : ℚ) := by positivity
  rw [h] at h0
  norm_num at h0

theorem mapGet_mem {K V : Type} [DecidableEq K] {l : List (K × V)} {k : K} {v : V}
    (h : mapGet l k = some v) : (k, v) ∈ l := by
  induction l with
  | nil => simp [mapGet] at h
  | cons p rest ih =>
    obtain ⟨k', v'⟩ := p
    simp only [mapGet] at h
    split at h
    · rename_i he
      injection h with h
      subst h
      subst he
      simp
    · exact List.mem_cons_of_mem _ (ih h)

end CityPath

namespace CityPath

theorem seq_eq_true_iff {a b : JsNum} (ha : a ≠ .nan) (hb : b ≠ .nan) :
    JsNum.seq a b = true ↔ a = b := by
  cases a <;> cases b <;> simp_all [JsNum.seq]

theorem getWeight_ne_nan (t : NavLayer) (occ : Bool) :
    (if occ then JsNum.inf else getWeightByType t) ≠ .nan := by
  cases occ
  · cases t with
    | tile tt => cases tt <;> simp [getWeightByType, weightMap]
    | road => simp [getWeightByType, weightMap]
    | building => simp [getWeightByType, weightMap]
  · simp

/-- `updateNode` at a canonical in-range index whose stored weight already
equals the target weight is a complete no-op. -/
theorem updateNode_eq_of_same {st : PFState} {x z : JsNum} {t : NavLayer}
    {occ : Bool} {n : Nat}
    (hn : canonIdx st.grid.length (toIndex st x z) = some n)
    (hnn : st.grid.get? n ≠ some JsNum.nan)
    (hsame : st.grid.get? n = some (if occ then JsNum.inf else getWeightByType t)) :
    updateNode st x z t occ = st := by
  obtain ⟨hj, hlt⟩ := canonIdx_some hn
  cases hval : st.grid.get? n with
  | none =>
    rw [List.get?_eq_none] at hval
    omega
  | some v =>
    rw [hval] at hsame hnn
    injection hsame with hsame
    have hvn : v ≠ JsNum.nan := fun h => hnn (by rw [h])
    have hseqm1 : (toIndex st x z).seq (.q (-1)) = false := by
      rw [hj]; exact seq_q_natCast_neg_one n
    have hread : gridRead st (toIndex st x z) = some v := by
      rw [gridRead, hn]
      simpa using hval
    have hseq : JsNum.seq v (if occ then JsNum.inf else getWeightByType t) = true :=
      (seq_eq_true_iff hvn (getWeight_ne_nan t occ)).mpr hsame
    simp only [updateNode, hseqm1, Bool.false_eq_true, if_false, hread, strictNeqU,
      hseq, Bool.not_true]

/-- `updateNode` at a canonical in-range index whose stored weight differs
from the target writes exactly that cell and bumps the version by one. -/
theorem updateNode_eq_of_change {st : PFState} {x z : JsNum} {t : NavLayer}
    {occ : Bool} {n : Nat}
    (hn : canonIdx st.grid.length (toIndex st x z) = some n)
    (hnn : st.grid.get? n ≠ some JsNum.nan)
    (hchange : st.grid.get? n ≠ some (if occ then JsNum.inf else getWeightByType t)) :
    updateNode st x z t occ =
      { st with
          grid := st.grid.set n (if occ then JsNum.inf else getWeightByType t)
          gridVersion := st.gridVersion + 1 } := by
  obtain ⟨hj, hlt⟩ := canonIdx_some hn
  cases hval : st.grid.get? n with
  | none =>
    rw [List.get?_eq_none] at hval
    omega
  | some v =>
    rw [hval] at hchange hnn
    have hvw : v ≠ (if occ then JsNum.inf else getWeightByType t) := by
      intro h
      exact hchange (by rw [h])
    have hseqm1 : (toIndex st x z).seq (.q (-1)) = false := by
      rw [hj]; exact seq_q_natCast_neg_one n
    have hread : gridRead st (toIndex st x z) = some v := by
      rw [gridRead, hn]
      simpa using hval
    have hseq : JsNum.seq v (if occ then JsNum.inf else getWeightByType t) = false := by
      cases hv : JsNum.seq v (if occ then JsNum.inf else getWeightByType t) with
      | true =>
        exfalso
        by_cases hvn : v = .nan
        · rw [hvn] at hv
          simp [JsNum.seq] at hv
        · exact hvw ((seq_eq_true_iff hvn (getWeight_ne_nan t occ)).mp hv)
      | false => rfl
    simp only [updateNode, hseqm1, Bool.false_eq_true, if_false, hread, strictNeqU,
      hseq, Bool.not_false, if_true, gridWrite, hn]

end CityPath

namespace CityPath

/-! ## Concrete states used by witnesses -/

/-- A 3×3 all-grass demo map. -/
def tilesDemo : List TileD :=
  (List.range 3).flatMap fun i =>
    (List.range 3).map fun j =>
      { x := .q ((i : ℤ) - 1), z := .q ((j : ℤ) - 1), type := .grass, occupied := false }

/-- The service synchronised with the 3×3 all-grass map. -/
def stDemo : PFState := syncWithStore initService tilesDemo 3

/-- `stDemo` after one successful search (so one cache entry exists). -/
def stDemoCached : PFState :=
  (findPathSync stDemo ⟨.q (-1), .q (-1)⟩ ⟨.q 1, .q 1⟩ {}).2

/-! ## C4 -/

/-- **C4.**  For every in-range cell update, `updateNode` increments the
grid version counter if and only if the resulting weight differs from the
cell's current weight: a no-op write leaves the state entirely unchanged,
while a real change writes exactly that one cell and increments the
version by one. -/
theorem updateNode_frame (st : PFState) (x z : JsNum) (t : NavLayer) (occ : Bool)
    (n : Nat) (hn : canonIdx st.grid.length (toIndex st x z) = some n)
    (hnn : st.grid.get? n ≠ some JsNum.nan) :
    (st.grid.get? n = some (if occ then JsNum.inf else getWeightByType t) →
       updateNode st x z t occ = st) ∧
    (st.grid.get? n ≠ some (if occ then JsNum.inf else getWeightByType t) →
       updateNode st x z t occ =
         { st with
             grid := st.grid.set n (if occ then JsNum.inf else getWeightByType t)
             gridVersion := st.gridVersion + 1 }) :=
  ⟨fun hsame => updateNode_eq_of_same hn hnn hsame,
   fun hchange => updateNode_eq_of_change hn hnn hchange⟩

/-- Witness for C4 at the concrete 3×3 state: laying a road over grass at
the centre cell writes that cell and bumps the version; re-writing grass
over grass changes nothing. -/
theorem updateNode_frame_witness :
    updateNode stDemo (.q 0) (.q 0) .road false =
      { stDemo with
          grid := stDemo.grid.set 4 (.q (1/2))
          gridVersion := stDemo.gridVersion + 1 } ∧
    updateNode stDemo (.q 0) (.q 0) (.tile .grass) false = stDemo := by
  constructor
  · exact (updateNode_frame stDemo (.q 0) (.q 0) .road false 4
      (by with_unfolding_all decide) (by with_unfolding_all decide)).2
      (by with_unfolding_all decide)
  · exact (updateNode_frame stDemo (.q 0) (.q 0) (.tile .grass) false 4
      (by with_unfolding_all decide) (by with_unfolding_all decide)).1
      (by with_unfolding_all decide)

end CityPath

namespace CityPath

/-! ## C3 -/

/-- `checkCache` misses (and leaves the state alone) whenever no cache
entry carries the current grid version. -/
theorem checkCache_none_of_stale (st2 : PFState)
    (hstale : ∀ p ∈ st2.pathCache, (p.2).version ≠ st2.gridVersion) :
    ∀ s e o, checkCache st2 s e o = (none, st2) := by
  intro s e o
  cases hk : getPathKey st2 s e o with
  | inv a b c d => simp only [checkCache, hk]
  | valid k =>
    cases hm : mapGet st2.pathCache k with
    | none => simp only [checkCache, hk, hm]
    | some entry =>
      simp only [checkCache, hk, hm]
      rw [if_neg (hstale (k, entry) (mapGet_mem hm))]

/-- **C3.**  A cache entry is served only while its stored version equals
the grid's current version: after an `updateNode` call that actually
changes an in-range cell's weight (bumping the version), `checkCache`
misses for every request — silently, returning `none` and leaving the
state untouched.  Conversely, a served entry always carries the current
version. -/
theorem cache_version_invalidation (st : PFState) (x z : JsNum) (t : NavLayer)
    (occ : Bool) (n : Nat)
    (hn : canonIdx st.grid.length (toIndex st x z) = some n)
    (hnn : st.grid.get? n ≠ some JsNum.nan)
    (hchange : st.grid.get? n ≠ some (if occ then JsNum.inf else getWeightByType t))
    (hver : ∀ p ∈ st.pathCache, (p.2).version ≤ st.gridVersion) :
    (∀ s e o, checkCache (updateNode st x z t occ) s e o =
        (none, updateNode st x z t occ)) ∧
    (∀ st' s e o r, (checkCache st' s e o).1 = some r →
        ∀ k entry, getPathKey st' s e o = .valid k →
          mapGet st'.pathCache k = some entry → entry.version = st'.gridVersion) := by
  constructor
  · have hst : updateNode st x z t occ =
        { st with
            grid := st.grid.set n (if occ then JsNum.inf else getWeightByType t)
            gridVersion := st.gridVersion + 1 } :=
      updateNode_eq_of_change hn hnn hchange
    rw [hst]
    apply checkCache_none_of_stale
    intro p hp
    have := hver p hp
    simp only []
    omega
  · intro st' s e o r hsome k entry hk hm
    by_cases hv : entry.version = st'.gridVersion
    · exact hv
    · exfalso
      simp [checkCache, hk, hm, hv] at hsome

/-- Witness for C3: on the concrete cached state, laying a road on the
centre cell invalidates the previously cached route and the next lookup of
the very same request misses. -/
theorem cache_version_invalidation_witness :
    checkCache (updateNode stDemoCached (.q 0) (.q 0) .road false)
        ⟨.q (-1), .q (-1)⟩ ⟨.q 1, .q 1⟩ {} =
      (none, updateNode stDemoCached (.q 0) (.q 0) .road false) :=
  (cache_version_invalidation stDemoCached (.q 0) (.q 0) .road false 4
    (by with_unfolding_all decide) (by with_unfolding_all decide)
    (by with_unfolding_all decide) (by
      intro p hp
      have h2 : stDemoCached.pathCache.all
          (fun p => decide (p.2.version ≤ stDemoCached.gridVersion)) = true := by
        with_unfolding_all decide
      rw [List.all_eq_true] at h2
      exact of_decide_eq_true (h2 p hp))).1
    ⟨.q (-1), .q (-1)⟩ ⟨.q 1, .q 1⟩ {}

end CityPath

namespace CityPath

/-! ## Status lemmas for the search -/

theorem postLoop_status_ne_invalid (env : AStarEnv) (iterations : Nat)
    (s : LoopState) : (postLoop env iterations s).status ≠ .invalid_args := by
  rw [postLoop]
  split
  · split <;> simp
  · split <;> simp

theorem aLoop_status_ne_invalid (env : AStarEnv) :
    ∀ (fuel iterations : Nat) (s : LoopState),
      (aLoop env fuel iterations s).1.status ≠ .invalid_args := by
  intro fuel
  induction fuel with
  | zero =>
    intro iterations s
    exact postLoop_status_ne_invalid env iterations s
  | succ fuel ih =>
    intro iterations s
    simp only [aLoop]
    split
    · exact postLoop_status_ne_invalid env _ _
    · split
      · simp
      · split
        · exact postLoop_status_ne_invalid env _ _
        · split
          · exact postLoop_status_ne_invalid env _ _
          · split
            · exact ih _ _
            · split
              · simp
              · exact ih _ _

theorem calculateAStar_status_ne_invalid (st : PFState) (startIdx : Nat)
    (endIdx : Option Nat) (maxIterations : Nat) (hW : ℚ) (incl fail : Bool)
    (bufs : Buffers) (sig : Bool) :
    (calculateAStar st startIdx endIdx maxIterations hW incl fail bufs sig).1.status ≠
      .invalid_args := by
  simp only [calculateAStar]
  exact aLoop_status_ne_invalid _ _ _ _

end CityPath

namespace CityPath

/-! ## C7 -/

/-- **C7 counterexample.**  A `NaN` start coordinate slips through the
`toIndex === -1` validation (every range comparison on `NaN` is false), so
`findPathSync` returns `no_path` — not `invalid_args` as the claim
states. -/
theorem findPathSync_nan_not_invalid :
    (findPathSync stDemo ⟨.nan, .q 0⟩ ⟨.q 1, .q 1⟩ {}).1.status = .no_path ∧
    (findPathSync stDemo ⟨.nan, .q 0⟩ ⟨.q 1, .q 1⟩ {}).1.status ≠ .invalid_args := by
  constructor
  · with_unfolding_all decide
  · with_unfolding_all decide

/-- An infinite coordinate component always maps to index `-1`. -/
theorem toIndex_inf_eq_neg_one (st : PFState) (wz : JsNum) :
    toIndex st .inf wz = .q (-1) ∧ toIndex st .ninf wz = .q (-1) ∧
    toIndex st wz .inf = .q (-1) ∧ toIndex st wz .ninf = .q (-1) := by
  refine ⟨?_, ?_, ?_, ?_⟩ <;>
  · rw [toIndex]
    simp only [toGridX, toGridZ, JsNum.add, JsNum.floor]
    cases hz : (wz.add (.q (1/2))).floor <;>
      simp [JsNum.add, JsNum.lt, JsNum.ge, JsNum.le]

/-- When an index is `-1`, `findPathSync` (with no pending abort) returns
`invalid_args`. -/
theorem findPathSync_invalid_of_idx (st : PFState) (s e : Coordinates)
    (o : PathOptions) (habort : o.abortedNow = false)
    (hidx : ((toIndex st s.x s.z).seq (.q (-1)) ||
      (toIndex st e.x e.z).seq (.q (-1))) = true) :
    (findPathSync st s e o).1.status = .invalid_args := by
  have hkey : getPathKey st s e o = .inv s.x s.z e.x e.z := by
    simp only [getPathKey, hidx, if_true]
  simp only [findPathSync, hkey, cacheProbe, habort, Bool.false_eq_true, if_false,
    hidx, if_true]

/-- When both indices differ from `-1`, `findPathSync` never returns
`invalid_args`. -/
theorem findPathSync_not_invalid_of_idx (st : PFState) (s e : Coordinates)
    (o : PathOptions)
    (hidx : ((toIndex st s.x s.z).seq (.q (-1)) ||
      (toIndex st e.x e.z).seq (.q (-1))) = false) :
    (findPathSync st s e o).1.status ≠ .invalid_args := by
  cases hcp : cacheProbe st (getPathKey st s e o) with
  | some entry => simp [findPathSync, hcp]
  | none =>
    by_cases hab : o.abortedNow = true
    · simp [findPathSync, hcp, hab]
    · rw [Bool.not_eq_true] at hab
      simp only [findPathSync, hcp, hab, Bool.false_eq_true, if_false, hidx]
      split
      · simp
      · split
        · simp
        · split
          · simp
          · split
            · simp
            · exact calculateAStar_status_ne_invalid _ _ _ _ _ _ _ _ _

/-- **C7 (amended).**  With no abort signal pending, `findPathSync` returns
`invalid_args` exactly when the start or the end coordinate maps to grid
index `-1` — which covers out-of-range and infinite components
(`toIndex_inf_eq_neg_one`) but not `NaN` components, which escape the
check (see the counterexample `findPathSync_nan_not_invalid`). -/
theorem findPathSync_invalid_args_iff (st : PFState) (s e : Coordinates)
    (o : PathOptions) (habort : o.abortedNow = false) :
    (findPathSync st s e o).1.status = .invalid_args ↔
      ((toIndex st s.x s.z).seq (.q (-1)) || (toIndex st e.x e.z).seq (.q (-1)))
        = true := by
  constructor
  · intro hstat
    cases hidx : ((toIndex st s.x s.z).seq (.q (-1)) ||
        (toIndex st e.x e.z).seq (.q (-1))) with
    | true => rfl
    | false => exact absurd hstat (findPathSync_not_invalid_of_idx st s e o hidx)
  · exact findPathSync_invalid_of_idx st s e o habort

/-- Witness for the amended C7: a start outside the 3×3 grid yields
`invalid_args`, an in-grid pair does not. -/
theorem findPathSync_invalid_args_iff_witness :
    (findPathSync stDemo ⟨.q 7, .q 0⟩ ⟨.q 1, .q 1⟩ {}).1.status = .invalid_args ∧
    ¬ (findPathSync stDemo ⟨.q 0, .q 0⟩ ⟨.q 1, .q 1⟩ {}).1.status = .invalid_args := by
  constructor
  · exact (findPathSync_invalid_args_iff stDemo ⟨.q 7, .q 0⟩ ⟨.q 1, .q 1⟩ {}
      (by decide)).mpr (by with_unfolding_all decide)
  · intro h
    exact absurd ((findPathSync_invalid_args_iff stDemo ⟨.q 0, .q 0⟩ ⟨.q 1, .q 1⟩ {}
      (by decide)).mp h) (by with_unfolding_all decide)

end CityPath

namespace CityPath

/-! ## C8 -/

/-- **C8 counterexample.**  The claim quantifies over every in-grid `p`
(and implicitly every option bag), but an already-fired abort signal is
checked before the start==end short-circuit: `findPathSync(p, p)` then
returns `aborted`, not `success`. -/
theorem findPathSync_same_cell_abort_cx :
    (findPathSync stDemo ⟨.q 1, .q 1⟩ ⟨.q 1, .q 1⟩
        { signal := some true }).1.status = .aborted ∧
    (findPathSync stDemo ⟨.q 1, .q 1⟩ ⟨.q 1, .q 1⟩
        { signal := some true }).1.status ≠ .success := by
  constructor
  · with_unfolding_all decide
  · with_unfolding_all decide

/-- **C8 (amended).**  Provided no abort signal has fired and the cache
holds no matching entry, `findPathSync(p, p)` on an in-grid cell
short-circuits: status `success`, zero iterations, and the path is `[p]`
exactly when `includeStartNode` is set, else empty — with no search run
(the returned state shows only the tie-break fields were touched: no
cache-miss count, no search id, no buffer activity). -/
theorem findPathSync_same_cell (st : PFState) (p : Coordinates) (o : PathOptions)
    (habort : o.abortedNow = false) (n : Nat)
    (hn : toIndex st p.x p.z = .q (n : ℚ))
    (hcp : cacheProbe st (getPathKey st p p o) = none) :
    findPathSync st p p o =
      ({ path := if o.includeStartNode.getD false then [p] else [],
         status := .success, iterations := 0, cached := false },
       { st with startGridX := toGridX st p.x, startGridZ := toGridZ st p.z }) := by
  have hne : (toIndex st p.x p.z).seq (.q (-1)) = false := by
    rw [hn]; exact seq_q_natCast_neg_one n
  have hself : (toIndex st p.x p.z).seq (toIndex st p.x p.z) = true := by
    rw [hn, seq_qq]
    simp
  simp only [findPathSync, hcp, habort, Bool.false_eq_true, if_false, hne,
    Bool.or_self, hself, if_true]

/-- Witness for the amended C8 on the 3×3 grid, for both settings of
`includeStartNode`. -/
theorem findPathSync_same_cell_witness :
    findPathSync stDemo ⟨.q 1, .q 1⟩ ⟨.q 1, .q 1⟩ {} =
      ({ path := [], status := .success, iterations := 0, cached := false },
       { stDemo with
           startGridX := toGridX stDemo (.q 1)
           startGridZ := toGridZ stDemo (.q 1) }) ∧
    findPathSync stDemo ⟨.q 1, .q 1⟩ ⟨.q 1, .q 1⟩
        { includeStartNode := some true } =
      ({ path := [⟨.q 1, .q 1⟩], status := .success, iterations := 0, cached := false },
       { stDemo with
           startGridX := toGridX stDemo (.q 1)
           startGridZ := toGridZ stDemo (.q 1) }) := by
  constructor
  · exact findPathSync_same_cell stDemo ⟨.q 1, .q 1⟩ {} (by decide) 8
      (by with_unfolding_all decide) (by with_unfolding_all decide)
  · exact findPathSync_same_cell stDemo ⟨.q 1, .q 1⟩ { includeStartNode := some true }
      (by decide) 8 (by with_unfolding_all decide) (by with_unfolding_all decide)

end CityPath

namespace CityPath

/-! ## Scheduler lemmas -/

theorem queueOf_setQueue_same (st : Sched) (t : Priority) (l : List Nat) :
    (st.setQueue t l).queueOf t = l := by
  cases t <;> rfl

theorem queueOf_setQueue_other (st : Sched) (t t2 : Priority) (l : List Nat)
    (h : t2 ≠ t) : (st.setQueue t l).queueOf t2 = st.queueOf t2 := by
  cases t <;> cases t2 <;> first | rfl | exact absurd rfl h

theorem reqs_setQueue (st : Sched) (t : Priority) (l : List Nat) :
    (st.setQueue t l).reqs = st.reqs := by
  cases t <;> rfl

theorem outcomes_setQueue (st : Sched) (t : Priority) (l : List Nat) :
    (st.setQueue t l).outcomes = st.outcomes := by
  cases t <;> rfl

theorem engineCalls_setQueue (st : Sched) (t : Priority) (l : List Nat) :
    (st.setQueue t l).engineCalls = st.engineCalls := by
  cases t <;> rfl

theorem processedCount_setQueue (st : Sched) (t : Priority) (l : List Nat) :
    (st.setQueue t l).processedCount = st.processedCount := by
  cases t <;> rfl

theorem nextId_setQueue (st : Sched) (t : Priority) (l : List Nat) :
    (st.setQueue t l).nextId = st.nextId := by
  cases t <;> rfl

theorem pending_setQueue (st : Sched) (t : Priority) (l : List Nat) :
    (st.setQueue t l).pending = st.pending := by
  cases t <;> rfl

/-- The per-element effect of the `dropLowPriorityBatch` loop: only
`outcomes`, `pending` and `droppedCount` change. -/
theorem dropFold_spec (l : List Nat) :
    ∀ st : Sched,
      (l.foldl
        (fun acc id =>
          { acc with
              outcomes := acc.outcomes ++ [(id, SOutcome.rejDroppedForPriority)]
              pending :=
                match mapGet acc.reqs id with
                | some r => mapDelete acc.pending r.key
                | none => acc.pending
              droppedCount := acc.droppedCount + 1 })
        st).outcomes = st.outcomes ++ l.map (fun id => (id, SOutcome.rejDroppedForPriority)) ∧
      (l.foldl
        (fun acc id =>
          { acc with
              outcomes := acc.outcomes ++ [(id, SOutcome.rejDroppedForPriority)]
              pending :=
                match mapGet acc.reqs id with
                | some r => mapDelete acc.pending r.key
                | none => acc.pending
              droppedCount := acc.droppedCount + 1 })
        st).qlow = st.qlow ∧
      (l.foldl
        (fun acc id =>
          { acc with
              outcomes := acc.outcomes ++ [(id, SOutcome.rejDroppedForPriority)]
              pending :=
                match mapGet acc.reqs id with
                | some r => mapDelete acc.pending r.key
                | none => acc.pending
              droppedCount := acc.droppedCount + 1 })
        st).qhigh = st.qhigh ∧
      (l.foldl
        (fun acc id =>
          { acc with
              outcomes := acc.outcomes ++ [(id, SOutcome.rejDroppedForPriority)]
              pending :=
                match mapGet acc.reqs id with
                | some r => mapDelete acc.pending r.key
                | none => acc.pending
              droppedCount := acc.droppedCount + 1 })
        st).qmed = st.qmed ∧
      (l.foldl
        (fun acc id =>
          { acc with
              outcomes := acc.outcomes ++ [(id, SOutcome.rejDroppedForPriority)]
              pending :=
                match mapGet acc.reqs id with
                | some r => mapDelete acc.pending r.key
                | none => acc.pending
              droppedCount := acc.droppedCount + 1 })
        st).nextId = st.nextId := by
  induction l with
  | nil => intro st; simp [List.foldl]
  | cons id rest ih =>
    intro st
    simp only [List.foldl_cons, List.map_cons]
    obtain ⟨h1, h2, h3, h4, h5⟩ := ih _
    refine ⟨?_, by simpa using h2, by simpa using h3, by simpa using h4, by simpa using h5⟩
    rw [h1]
    simp

/-- `dropLowPriorityBatch(count)` drops the `min count len` oldest low
requests, rejecting each with the priority-drop error, and touches no
other queue. -/
theorem dropLowBatch_spec (st : Sched) (c : Nat) :
    (dropLowBatch st c).2.qlow = st.qlow.drop (min c st.qlow.length) ∧
    (dropLowBatch st c).2.outcomes =
      st.outcomes ++ (st.qlow.take (min c st.qlow.length)).map
        (fun id => (id, SOutcome.rejDroppedForPriority)) ∧
    (dropLowBatch st c).2.qhigh = st.qhigh ∧
    (dropLowBatch st c).2.qmed = st.qmed ∧
    (dropLowBatch st c).2.nextId = st.nextId ∧
    ((dropLowBatch st c).1 = true ↔ st.qlow ≠ []) := by
  rw [dropLowBatch]
  by_cases hlen : st.qlow.length = 0
  · rw [if_pos hlen]
    rw [List.length_eq_zero] at hlen
    simp [hlen]
  · rw [if_neg hlen]
    obtain ⟨h1, h2, h3, h4, h5⟩ := dropFold_spec (st.qlow.take (min c st.qlow.length)) st
    refine ⟨by simp [h2], by simp [h1], by simp [h3], by simp [h4], by simp [h5], ?_⟩
    simp only [true_iff]
    intro hc
    exact hlen (by rw [hc]; rfl)

end CityPath

namespace CityPath

/-! ## C5 -/

/-- **C5.**  When the total number of queued requests has reached the
ceiling at submission time (no cache hit, no pending duplicate): a
high-priority submission evicts a batch of up to five oldest low-priority
requests (each rejected with the priority-drop overload error) and is
itself enqueued; a medium-priority submission evicts one low-priority
request if any exist and is otherwise itself rejected with the queue-full
error; a low-priority submission is rejected outright. -/
theorem requestPath_overflow_policy (env : SchedEnv) (now : ℚ) (st : Sched)
    (s e : Coordinates) (o : PathOptions)
    (hc : env.cacheFn s e o = none)
    (hp : mapGet st.pending (env.keyFn s e o) = none)
    (hfull : MAX_QUEUE_SIZE ≤ st.totalQueueSize) :
    ((requestPath env now st s e .high o).1 = .promiseOf st.nextId ∧
     (requestPath env now st s e .high o).2.qlow =
        st.qlow.drop (min 5 st.qlow.length) ∧
     (requestPath env now st s e .high o).2.qhigh = st.qhigh ++ [st.nextId] ∧
     (requestPath env now st s e .high o).2.outcomes =
        st.outcomes ++ (st.qlow.take (min 5 st.qlow.length)).map
          (fun id => (id, SOutcome.rejDroppedForPriority))) ∧
    (st.qlow ≠ [] →
     (requestPath env now st s e .medium o).1 = .promiseOf st.nextId ∧
     (requestPath env now st s e .medium o).2.qlow = st.qlow.drop 1 ∧
     (requestPath env now st s e .medium o).2.qmed = st.qmed ++ [st.nextId] ∧
     (requestPath env now st s e .medium o).2.outcomes =
        st.outcomes ++ (st.qlow.take 1).map
          (fun id => (id, SOutcome.rejDroppedForPriority))) ∧
    (st.qlow = [] →
     (requestPath env now st s e .medium o).1 = .rejectedNow .rejQueueFull ∧
     (requestPath env now st s e .medium o).2 = st) ∧
    ((requestPath env now st s e .low o).1 = .rejectedNow .rejQueueFull ∧
     (requestPath env now st s e .low o).2 =
        { st with droppedCount := st.droppedCount + 1 }) := by
  refine ⟨?_, ?_, ?_, ?_⟩
  · obtain ⟨h1, h2, h3, h4, h5, h6⟩ := dropLowBatch_spec st 5
    simp only [requestPath, hc, hp, if_pos hfull, enqueueReq, Sched.setQueue,
      Sched.queueOf]
    refine ⟨by rw [h5], by simp [h1], by simp [h5, h3], by simp [h2]⟩
  · intro hne
    have hlen : min 1 st.qlow.length = 1 := by
      have : 1 ≤ st.qlow.length := by
        cases hq : st.qlow with
        | nil => exact absurd hq hne
        | cons a l => simp [hq]
      omega
    obtain ⟨h1, h2, h3, h4, h5, h6⟩ := dropLowBatch_spec st 1
    have hb : (dropLowBatch st 1).1 = true := h6.mpr hne
    simp only [requestPath, hc, hp, if_pos hfull, hb, if_true, enqueueReq,
      Sched.setQueue, Sched.queueOf]
    rw [hlen] at h1 h2
    refine ⟨by rw [h5], by simp [h1], by simp [h5, h4], by simp [h2]⟩
  · intro hemp
    have hb : (dropLowBatch st 1).1 = false := by
      cases hv : (dropLowBatch st 1).1 with
      | true => exact absurd ((dropLowBatch_spec st 1).2.2.2.2.2.mp hv) (by simp [hemp])
      | false => rfl
    have hst : (dropLowBatch st 1).2 = st := by
      rw [dropLowBatch, if_pos (by rw [hemp]; rfl)]
    simp only [requestPath, hc, hp, if_pos hfull, hb, Bool.false_eq_true, if_false, hst]
    exact ⟨trivial, trivial⟩
  · simp only [requestPath, hc, hp, if_pos hfull]
    exact ⟨trivial, trivial⟩

/-- A stub service environment: every cache lookup misses, keys are built
from the raw coordinates, and the engine is a counting stub returning
`no_path`. -/
def envStub : SchedEnv where
  cacheFn := fun _ _ _ => none
  keyFn := fun s e _ => .inv s.x s.z e.x e.z
  engine := fun _ _ _ => { path := [], status := .no_path }

/-- The `i`-th background request used to saturate the queue. -/
def lowReq (i : Nat) : SReq where
  key := .inv (.q (i : ℚ)) (.q 0) (.q 0) (.q 0)
  start := ⟨.q (i : ℚ), .q 0⟩
  endc := ⟨.q 0, .q 0⟩
  options := {}
  priority := .low
  timestamp := 0

/-- A scheduler saturated with `MAX_QUEUE_SIZE` low-priority requests. -/
def stFull : Sched :=
  { initSched with
      reqs := (List.range 1000).map (fun i => (i, lowReq i))
      qlow := List.range 1000
      pending := (List.range 1000).map (fun i => ((lowReq i).key, i))
      nextId := 1000 }

/-- Witness for C5 at the saturated scheduler: a high submission evicts
five and enters the high queue; a low submission is rejected. -/
theorem requestPath_overflow_policy_witness :
    (requestPath envStub 0 stFull ⟨.q 2000, .q 0⟩ ⟨.q 0, .q 0⟩ .high {}).1 =
        .promiseOf 1000 ∧
    (requestPath envStub 0 stFull ⟨.q 2000, .q 0⟩ ⟨.q 0, .q 0⟩ .high {}).2.qlow =
        (List.range 1000).drop 5 ∧
    (requestPath envStub 0 stFull ⟨.q 2000, .q 0⟩ ⟨.q 0, .q 0⟩ .low {}).1 =
        .rejectedNow .rejQueueFull := by
  obtain ⟨hh, _, _, hl⟩ := requestPath_overflow_policy envStub 0 stFull
    ⟨.q 2000, .q 0⟩ ⟨.q 0, .q 0⟩ {} rfl (by with_unfolding_all decide)
    (by with_unfolding_all decide)
  refine ⟨hh.1, ?_, hl.1⟩
  rw [hh.2.1]
  with_unfolding_all decide

end CityPath

namespace CityPath

/-! ## C6 -/

/-- How `processQueue` settles one dequeued request of tier `tier` at
clock `now`: aging rejection (never for high priority), abort rejection,
or a synchronous engine run. -/
def tickOutcome (env : SchedEnv) (now : ℚ) (tier : Priority) (req : SReq) :
    SOutcome :=
  if tier ≠ .high ∧ MAX_WAIT_TIME < now - req.timestamp then .rejAging
  else if req.options.abortedNow then .rejAborted
  else .resolved (env.engine req.start req.endc req.options)

/-- The settlements a full drain of one tier's queue appends. -/
def tierOutcomes (env : SchedEnv) (now : ℚ) (reqs : List (Nat × SReq))
    (tier : Priority) (q : List Nat) : List (Nat × SOutcome) :=
  q.filterMap fun id => (mapGet reqs id).map fun r => (id, tickOutcome env now tier r)

/-- How many of these settlements consumed a PathEngine search. -/
def countSearches (l : List (Nat × SOutcome)) : Nat :=
  l.countP fun p => match p.2 with | .resolved _ => true | _ => false

/-- Full characterisation of `drainTier` when the budget check never fires
(non-negative budget under the constant-clock model): the whole queue is
consumed, each request settles with its `tickOutcome`, and the engine runs
exactly once per `resolved` settlement. -/
theorem drainTier_run (env : SchedEnv) (now b : ℚ) (tier : Priority)
    (hb : ¬ b < 0) :
    ∀ (q : List Nat) (st : Sched) (pc : Nat), st.queueOf tier = q →
      ∃ st' pc', drainTier env now b tier q.length st pc = (st', pc', false) ∧
        st'.outcomes = st.outcomes ++ tierOutcomes env now st.reqs tier q ∧
        st'.engineCalls = st.engineCalls +
          countSearches (tierOutcomes env now st.reqs tier q) ∧
        st'.reqs = st.reqs ∧
        st'.queueOf tier = [] ∧
        (∀ t2, t2 ≠ tier → st'.queueOf t2 = st.queueOf t2) := by
  intro q
  induction q with
  | nil =>
    intro st pc hq
    exact ⟨st, pc, rfl, by simp [tierOutcomes, countSearches], by
      simp [tierOutcomes, countSearches], rfl, hq, fun _ _ => rfl⟩
  | cons id rest ih =>
    intro st pc hq
    rw [List.length_cons, drainTier, hq]
    simp only [if_neg hb]
    cases hr : mapGet st.reqs id with
    | none =>
      simp only []
      obtain ⟨st', pc', heq, ho, he, hrq, hqt, hot⟩ :=
        ih (st.setQueue tier rest) pc (queueOf_setQueue_same st tier rest)
      rw [reqs_setQueue] at ho he hrq
      refine ⟨st', pc', heq, ?_, ?_, hrq, hqt, ?_⟩
      · rw [ho, outcomes_setQueue]
        simp [tierOutcomes, hr]
      · rw [he, engineCalls_setQueue]
        simp [tierOutcomes, hr]
      · intro t2 ht2
        rw [hot t2 ht2, queueOf_setQueue_other st tier t2 rest ht2]
    | some req =>
      simp only []
      by_cases hage : tier ≠ .high ∧ MAX_WAIT_TIME < now - req.timestamp
      · rw [if_pos hage]
        set st2 : Sched :=
          { st.setQueue tier rest with
              outcomes := (st.setQueue tier rest).outcomes ++ [(id, SOutcome.rejAging)]
              pending := mapDelete (st.setQueue tier rest).pending req.key
              droppedCount := (st.setQueue tier rest).droppedCount + 1 } with hst2
        have hq2 : st2.queueOf tier = rest := by
          rw [hst2]
          cases tier <;> simp [Sched.setQueue, Sched.queueOf]
        obtain ⟨st', pc', heq, ho, he, hrq, hqt, hot⟩ := ih st2 pc hq2
        have hrq2 : st2.reqs = st.reqs := by
          rw [hst2]; cases tier <;> rfl
        rw [hrq2] at ho he hrq
        refine ⟨st', pc', heq, ?_, ?_, hrq, hqt, ?_⟩
        · rw [ho]
          have : st2.outcomes = st.outcomes ++ [(id, SOutcome.rejAging)] := by
            rw [hst2]; cases tier <;> rfl
          rw [this]
          simp [tierOutcomes, tickOutcome, hage, List.filterMap_cons, hr]
        · rw [he]
          have : st2.engineCalls = st.engineCalls := by
            rw [hst2]; cases tier <;> rfl
          rw [this]
          simp [tierOutcomes, tickOutcome, countSearches, hage, List.countP_cons, List.filterMap_cons, hr]
        · intro t2 ht2
          rw [hot t2 ht2]
          rw [hst2]
          have : ∀ l, (st.setQueue tier l).queueOf t2 = st.queueOf t2 :=
            fun l => queueOf_setQueue_other st tier t2 l ht2
          cases tier <;> cases t2 <;> first
            | exact absurd rfl ht2
            | simp [Sched.setQueue, Sched.queueOf]
      · rw [if_neg hage]
        by_cases hab : req.options.abortedNow = true
        · rw [if_pos hab]
          set st2 : Sched :=
            { st.setQueue tier rest with
                outcomes := (st.setQueue tier rest).outcomes ++ [(id, SOutcome.rejAborted)]
                pending := mapDelete (st.setQueue tier rest).pending req.key } with hst2
          have hq2 : st2.queueOf tier = rest := by
            rw [hst2]
            cases tier <;> simp [Sched.setQueue, Sched.queueOf]
          obtain ⟨st', pc', heq, ho, he, hrq, hqt, hot⟩ := ih st2 pc hq2
          have hrq2 : st2.reqs = st.reqs := by
            rw [hst2]; cases tier <;> rfl
          rw [hrq2] at ho he hrq
          refine ⟨st', pc', heq, ?_, ?_, hrq, hqt, ?_⟩
          · rw [ho]
            have : st2.outcomes = st.outcomes ++ [(id, SOutcome.rejAborted)] := by
              rw [hst2]; cases tier <;> rfl
            rw [this]
            simp [tierOutcomes, tickOutcome, if_neg hage, hab, List.filterMap_cons, hr]
          · rw [he]
            have : st2.engineCalls = st.engineCalls := by
              rw [hst2]; cases tier <;> rfl
            rw [this]
            simp [tierOutcomes, tickOutcome, countSearches, if_neg hage, hab,
              List.countP_cons, List.filterMap_cons, hr]
          · intro t2 ht2
            rw [hot t2 ht2, hst2]
            cases tier <;> cases t2 <;> first
              | exact absurd rfl ht2
              | simp [Sched.setQueue, Sched.queueOf]
        · rw [if_neg hab]
          set base := st.setQueue tier rest with hbase
          set st2raw : Sched :=
            { base with
                engineCalls := base.engineCalls + 1
                outcomes := base.outcomes ++
                  [(id, SOutcome.resolved (env.engine req.start req.endc req.options))] }
            with hst2raw
          set st2 : Sched :=
            if mapGet st2raw.pending req.key = some id then
              { st2raw with pending := mapDelete st2raw.pending req.key }
            else st2raw with hst2
          have hq2 : st2.queueOf tier = rest := by
            rw [hst2]
            split <;>
              (rw [hst2raw, hbase]; cases tier <;> simp [Sched.setQueue, Sched.queueOf])
          obtain ⟨st', pc', heq, ho, he, hrq, hqt, hot⟩ := ih st2 (pc + 1) hq2
          have hrq2 : st2.reqs = st.reqs := by
            rw [hst2]
            split <;> (rw [hst2raw, hbase]; cases tier <;> rfl)
          rw [hrq2] at ho he hrq
          refine ⟨st', pc', heq, ?_, ?_, hrq, hqt, ?_⟩
          · rw [ho]
            have : st2.outcomes = st.outcomes ++
                [(id, SOutcome.resolved (env.engine req.start req.endc req.options))] := by
              rw [hst2]
              split <;> (rw [hst2raw, hbase]; cases tier <;> rfl)
            rw [this]
            simp [tierOutcomes, tickOutcome, if_neg hage, if_neg hab, List.filterMap_cons, hr]
          · rw [he]
            have : st2.engineCalls = st.engineCalls + 1 := by
              rw [hst2]
              split <;> (rw [hst2raw, hbase]; cases tier <;> rfl)
            rw [this]
            simp [tierOutcomes, tickOutcome, countSearches, if_neg hage, if_neg hab,
              List.countP_cons, List.filterMap_cons, hr]
            omega
          · intro t2 ht2
            rw [hot t2 ht2, hst2]
            split <;>
              (rw [hst2raw, hbase]; cases tier <;> cases t2 <;> first
                | exact absurd rfl ht2
                | simp [Sched.setQueue, Sched.queueOf])

end CityPath

namespace CityPath

/-- **C6.**  During a drain tick with a non-negative budget, every queued
request settles according to `tickOutcome`: a medium- or low-priority
request that has waited longer than `MAX_WAIT_TIME` is rejected with the
aging error, and such settlements consume no PathEngine search (the engine
runs exactly once per `resolved` settlement); a high-priority request is
never rejected for aging, no matter its age. -/
theorem processQueue_aging_policy (env : SchedEnv) (now b : ℚ) (st : Sched)
    (hb : ¬ b < 0) :
    (processQueue env now b st).outcomes =
      st.outcomes ++ tierOutcomes env now st.reqs .high st.qhigh
        ++ tierOutcomes env now st.reqs .medium st.qmed
        ++ tierOutcomes env now st.reqs .low st.qlow ∧
    (processQueue env now b st).engineCalls =
      st.engineCalls + countSearches (tierOutcomes env now st.reqs .high st.qhigh)
        + countSearches (tierOutcomes env now st.reqs .medium st.qmed)
        + countSearches (tierOutcomes env now st.reqs .low st.qlow) ∧
    (∀ r : SReq, tickOutcome env now .high r ≠ .rejAging) ∧
    (∀ (tier : Priority) (r : SReq), tier ≠ .high →
        MAX_WAIT_TIME < now - r.timestamp → tickOutcome env now tier r = .rejAging) ∧
    (∀ (i : Nat) (l : List (Nat × SOutcome)),
        countSearches ((i, SOutcome.rejAging) :: l) = countSearches l) := by
  obtain ⟨st1, p1, he1, ho1, hc1, hr1, hq1, hot1⟩ :=
    drainTier_run env now b .high hb st.qhigh st 0 rfl
  have hm1 : st1.queueOf .medium = st.qmed := hot1 .medium (by decide)
  obtain ⟨st2, p2, he2, ho2, hc2, hr2, hq2, hot2⟩ :=
    drainTier_run env now b .medium hb st.qmed st1 p1 hm1
  have hl : st2.queueOf .low = st.qlow := by
    rw [hot2 .low (by decide), hot1 .low (by decide)]
    rfl
  obtain ⟨st3, p3, he3, ho3, hc3, hr3, hq3, hot3⟩ :=
    drainTier_run env now b .low hb st.qlow st2 p2 hl
  have hm1' : st1.qmed = st.qmed := hm1
  have hl' : st2.qlow = st.qlow := hl
  have hfin : processQueue env now b st =
      (if 0 < p3 then { st3 with processedCount := st3.processedCount + p3 }
       else st3) := by
    simp only [processQueue, Sched.queueOf]
    rw [he1]
    simp only []
    simp only [Sched.queueOf, hm1']
    rw [he2]
    simp only []
    simp only [Sched.queueOf, hl']
    rw [he3]
  have houts : (processQueue env now b st).outcomes = st3.outcomes := by
    rw [hfin]; split <;> rfl
  have hcalls : (processQueue env now b st).engineCalls = st3.engineCalls := by
    rw [hfin]; split <;> rfl
  refine ⟨?_, ?_, ?_, ?_, ?_⟩
  · rw [houts, ho3, ho2, ho1, hr2, hr1]
  · rw [hcalls, hc3, hc2, hc1, hr2, hr1]
  · intro r
    rw [tickOutcome, if_neg (by simp)]
    split <;> simp
  · intro tier r htier hage
    rw [tickOutcome, if_pos ⟨htier, hage⟩]
  · intro i l
    simp [countSearches, List.countP_cons]

/-- A scheduler with one aged medium request, one aged low request, and
one equally aged high request. -/
def stAging : Sched :=
  { initSched with
      reqs :=
        [(0, { key := .inv (.q 0) (.q 0) (.q 1) (.q 1), start := ⟨.q 0, .q 0⟩,
               endc := ⟨.q 1, .q 1⟩, options := {}, priority := .medium,
               timestamp := 0 }),
         (1, { key := .inv (.q 2) (.q 0) (.q 1) (.q 1), start := ⟨.q 2, .q 0⟩,
               endc := ⟨.q 1, .q 1⟩, options := {}, priority := .low,
               timestamp := 0 }),
         (2, { key := .inv (.q 3) (.q 0) (.q 1) (.q 1), start := ⟨.q 3, .q 0⟩,
               endc := ⟨.q 1, .q 1⟩, options := {}, priority := .high,
               timestamp := 0 })]
      qmed := [0]
      qlow := [1]
      qhigh := [2]
      nextId := 3 }

/-- Witness for C6: at clock 3000 (all three requests 3000 ms old), the
medium and low requests age out with no search, while the high request is
searched and resolved. -/
theorem processQueue_aging_policy_witness :
    (processQueue envStub 3000 2 stAging).outcomes =
      [(2, SOutcome.resolved { path := [], status := .no_path }),
       (0, SOutcome.rejAging), (1, SOutcome.rejAging)] ∧
    (processQueue envStub 3000 2 stAging).engineCalls = 1 := by
  obtain ⟨ho, hc, _, _, _⟩ :=
    processQueue_aging_policy envStub 3000 2 stAging (by norm_num)
  constructor
  · rw [ho]
    with_unfolding_all decide
  · rw [hc]
    with_unfolding_all decide

end CityPath

namespace CityPath

/-! ## C2 -/

/-- **C2.**  Submitting the same (start, end, option subset) twice while
the first request is still pending (and no cache hit): both calls hand
back the same shared pending promise (id 0); the surviving request's
priority is the higher of the two and it sits, alone, in that tier's
queue; and a subsequent drain executes exactly one PathEngine search,
settling the one shared promise with the engine's result. -/
theorem requestPath_dedup (env : SchedEnv) (now now2 now3 b : ℚ)
    (s e : Coordinates) (p1 p2 : Priority) (o : PathOptions)
    (hc : env.cacheFn s e o = none)
    (hage : ¬ MAX_WAIT_TIME < now3 - now)
    (hab : o.abortedNow = false)
    (hb : ¬ b < 0) :
    (requestPath env now initSched s e p1 o).1 = .promiseOf 0 ∧
    (requestPath env now2 (requestPath env now initSched s e p1 o).2 s e p2 o).1 =
      .promiseOf 0 ∧
    (mapGet (requestPath env now2 (requestPath env now initSched s e p1 o).2
        s e p2 o).2.reqs 0).map SReq.priority =
      some (if p2.rank < p1.rank then p2 else p1) ∧
    (requestPath env now2 (requestPath env now initSched s e p1 o).2
        s e p2 o).2.queueOf (if p2.rank < p1.rank then p2 else p1) = [0] ∧
    (∀ t2, t2 ≠ (if p2.rank < p1.rank then p2 else p1) →
      (requestPath env now2 (requestPath env now initSched s e p1 o).2
        s e p2 o).2.queueOf t2 = []) ∧
    (processQueue env now3 b (requestPath env now2
        (requestPath env now initSched s e p1 o).2 s e p2 o).2).engineCalls = 1 ∧
    (processQueue env now3 b (requestPath env now2
        (requestPath env now initSched s e p1 o).2 s e p2 o).2).outcomes =
      [(0, SOutcome.resolved (env.engine s e o))] := by
  cases p1 <;> cases p2 <;>
    refine ⟨by simp [requestPath, hc, initSched, mapGet, Sched.totalQueueSize,
        MAX_QUEUE_SIZE, enqueueReq, Sched.setQueue, Sched.queueOf], ?_, ?_, ?_, ?_, ?_, ?_⟩ <;>
      simp [requestPath, hc, initSched, mapGet, Sched.totalQueueSize, MAX_QUEUE_SIZE,
        enqueueReq, Sched.setQueue, Sched.queueOf, Priority.rank, mapSet, mapDelete,
        processQueue, drainTier, Sched.reqs, hb, hage, hab, tickOutcome, List.erase] <;>
      first
        | rfl
        | (intro t2 ht2; cases t2 <;> simp_all [Sched.queueOf])

/-- Witness for C2: a low-priority then a high-priority submission of the
same request share promise id 0, and one drain runs exactly one search. -/
theorem requestPath_dedup_witness :
    (requestPath envStub 0 initSched ⟨.q 0, .q 0⟩ ⟨.q 1, .q 1⟩ .low {}).1 =
      .promiseOf 0 ∧
    (requestPath envStub 50 (requestPath envStub 0 initSched ⟨.q 0, .q 0⟩
        ⟨.q 1, .q 1⟩ .low {}).2 ⟨.q 0, .q 0⟩ ⟨.q 1, .q 1⟩ .high {}).1 =
      .promiseOf 0 ∧
    (processQueue envStub 100 2 (requestPath envStub 50 (requestPath envStub 0
        initSched ⟨.q 0, .q 0⟩ ⟨.q 1, .q 1⟩ .low {}).2 ⟨.q 0, .q 0⟩
        ⟨.q 1, .q 1⟩ .high {}).2).engineCalls = 1 := by
  obtain ⟨h1, h2, h3, h4, h5, h6, h7⟩ :=
    requestPath_dedup envStub 0 50 100 2 ⟨.q 0, .q 0⟩ ⟨.q 1, .q 1⟩ .low .high {}
      rfl (by norm_num [MAX_WAIT_TIME]) rfl (by norm_num)
  exact ⟨h1, h2, h6⟩

end CityPath

namespace CityPath

/-! ## Heap membership lemmas -/

theorem hSwap_length (l : List HeapEntry) (i j : Nat) :
    (hSwap l i j).length = l.length := by
  simp [hSwap]

theorem hGet_mem {l : List HeapEntry} {i : Nat} (h : i < l.length) :
    hGet l i ∈ l := by
  rw [hGet, List.getD_eq_getElem?_getD, List.getElem?_eq_getElem h]
  exact List.getElem_mem h

theorem hSwap_subset {l : List HeapEntry} {i j : Nat} (hi : i < l.length)
    (hj : j < l.length) : ∀ e ∈ hSwap l i j, e ∈ l := by
  intro e he
  rw [hSwap] at he
  rcases List.mem_or_eq_of_mem_set he with he2 | he2
  · rcases List.mem_or_eq_of_mem_set he2 with he3 | he3
    · exact he3
    · rw [he3]; exact hGet_mem hj
  · rw [he2]; exact hGet_mem hi

theorem bubbleUpF_subset :
    ∀ (fuel : Nat) (l : List HeapEntry) (idx : Nat), idx < l.length →
      ∀ e ∈ bubbleUpF fuel l idx, e ∈ l := by
  intro fuel
  induction fuel with
  | zero => intro l idx _ e he; exact he
  | succ fuel ih =>
    intro l idx hidx e he
    rw [bubbleUpF] at he
    by_cases h0 : idx = 0
    · rw [if_pos h0] at he; exact he
    · rw [if_neg h0] at he
      dsimp only at he
      have key : ∀ c : Nat, c < l.length →
          e ∈ bubbleUpF fuel (hSwap l idx c) c → e ∈ l := by
        intro c hc hee
        exact hSwap_subset hidx hc e
          (ih (hSwap l idx c) c (by rw [hSwap_length]; exact hc) e hee)
      split at he
      · exact he
      · split at he
        · exact he
        · exact key _ (by omega) he

theorem sinkDownF_subset :
    ∀ (fuel len : Nat) (l : List HeapEntry) (idx : Nat), len = l.length →
      ∀ e ∈ sinkDownF fuel len l idx, e ∈ l := by
  intro fuel
  induction fuel with
  | zero => intro len l idx _ e he; exact he
  | succ fuel ih =>
    intro len l idx hlen e he
    rw [sinkDownF] at he
    by_cases hidx : idx < len / 2
    · rw [if_pos hidx] at he
      dsimp only at he
      have key : ∀ c : Nat, c < l.length →
          e ∈ sinkDownF fuel len (hSwap l idx c) c → e ∈ l := by
        intro c hc hee
        exact hSwap_subset (by omega) hc e
          (ih len (hSwap l idx c) c (by rw [hSwap_length]; exact hlen) e hee)
      split at he
      all_goals first
        | exact he
        | (split at he
           all_goals first
             | exact he
             | exact key _ (by omega) he
             | (split at he
                all_goals first
                  | exact he
                  | exact key _ (by omega) he
                  | (split at he
                     all_goals first
                       | exact he
                       | exact key _ (by omega) he)))
    · rw [if_neg hidx] at he
      exact he

theorem push_mem {h : Heap} {i : Nat} {f g : JsNum} :
    ∀ e ∈ (h.push i f g).entries, e ∈ h.entries ∨ e = ⟨i, f, g⟩ := by
  intro e he
  rw [Heap.push] at he
  split at he
  · exact Or.inl he
  · have hidx : (h.entries ++ [(⟨i, f, g⟩ : HeapEntry)]).length - 1 <
        (h.entries ++ [(⟨i, f, g⟩ : HeapEntry)]).length := by
      simp
    have := bubbleUpF_subset _ _ _ hidx e he
    rcases List.mem_append.mp this with h2 | h2
    · exact Or.inl h2
    · simp at h2
      exact Or.inr h2

theorem pop_mem {h : Heap} {top : HeapEntry} {h' : Heap}
    (hp : h.pop = some (top, h')) :
    top ∈ h.entries ∧ ∀ e ∈ h'.entries, e ∈ h.entries := by
  rw [Heap.pop] at hp
  cases hl : h.entries with
  | nil => rw [hl] at hp; cases hp
  | cons a rest =>
    rw [hl] at hp
    cases rest with
    | nil =>
      simp only [] at hp
      injection hp with hp
      injection hp with hp1 hp2
      subst hp1
      rw [← hp2]
      exact ⟨by simp, by intro e he; simp at he⟩
    | cons b rest2 =>
      simp only [] at hp
      injection hp with hp
      injection hp with hp1 hp2
      subst hp1
      constructor
      · simp
      · intro e he
        rw [← hp2] at he
        simp only [] at he
        have hlen : (b :: rest2).length =
            ((b :: rest2).getLastD a :: (b :: rest2).dropLast).length := by
          simp
        have hsub := sinkDownF_subset
          ((b :: rest2).getLastD a :: (b :: rest2).dropLast).length
          (b :: rest2).length
          ((b :: rest2).getLastD a :: (b :: rest2).dropLast) 0 hlen e he
        rcases List.mem_cons.mp hsub with h2 | h2
        · right
          rw [h2]
          have hg : (b :: rest2).getLastD a = (b :: rest2).getLast (by simp) := by
            rw [List.getLastD_eq_getLast?]
            rw [List.getLast?_eq_getLast _ (by simp)]
            rfl
          rw [hg]
          exact List.getLast_mem _
        · right
          exact List.dropLast_subset _ h2

/-! ## Grid geometry -/

/-- Two world coordinates are 4-neighbors: both components are plain
numbers, they differ by exactly one unit in exactly one axis. -/
def coordAdj (a b : Coordinates) : Bool :=
  match a, b with
  | ⟨.q ax, .q az⟩, ⟨.q bx, .q bz⟩ =>
    decide ((|ax - bx| = 1 ∧ az = bz) ∨ (|az - bz| = 1 ∧ ax = bx))
  | _, _ => false

theorem coordAdj_qq (ax az bx bz : ℚ) :
    coordAdj ⟨.q ax, .q az⟩ ⟨.q bx, .q bz⟩ =
      decide ((|ax - bx| = 1 ∧ az = bz) ∨ (|az - bz| = 1 ∧ ax = bx)) := rfl

/-- The Manhattan heuristic of the source, as an exact rational, for a
grid of side `size` with minimum step cost `minStep`. -/
def hMan (size : Nat) (minStep : ℚ) (eN i : Nat) : ℚ :=
  (|((i % size : ℕ) : ℚ) - ((eN % size : ℕ) : ℚ)| +
   |((i / size : ℕ) : ℚ) - ((eN / size : ℕ) : ℚ)|) * minStep

/-- A positive, possibly infinite traversal weight (all `WEIGHT_MAP`
values have this shape). -/
def wOK : JsNum → Bool
  | .inf => true
  | .q a => decide (0 < a)
  | _ => false

/-- Every cell weight of the grid is `Infinity` or a positive rational. -/
def GridOK (grid : List JsNum) : Prop := ∀ w ∈ grid, wOK w = true

theorem wOK_iff (w : JsNum) :
    wOK w = true ↔ (w = .inf ∨ ∃ a : ℚ, w = .q a ∧ 0 < a) := by
  cases w <;> simp [wOK]

theorem mdHelp {size : Nat} (m d : Nat) (hsz : 0 < size) (hm : m < size) :
    (m + size * d) % size = m ∧ (m + size * d) / size = d := by
  constructor
  · rw [Nat.add_mul_mod_self_left, Nat.mod_eq_of_lt hm]
  · rw [Nat.add_mul_div_left _ _ hsz, Nat.div_eq_of_lt hm, Nat.zero_add]

theorem mem_neighborList {size total p n : Nat} :
    n ∈ neighborList size total p ↔
      (0 < p % size ∧ n = p - 1) ∨ (p % size < size - 1 ∧ n = p + 1) ∨
      (size ≤ p ∧ n = p - size) ∨ (p < total - size ∧ n = p + size) := by
  simp only [neighborList, List.mem_append]
  split <;> split <;> split <;> split <;> simp_all <;> omega

/-- A neighbor of an in-range cell is in range and lies one unit away in
exactly one axis of the (row, column) decomposition. -/
theorem neighbor_cells {size total p n : Nat} (hsz : 0 < size)
    (htot : total = size * size) (hp : p < total)
    (hn : n ∈ neighborList size total p) :
    n < total ∧
    ((n % size + 1 = p % size ∧ n / size = p / size) ∨
     (p % size + 1 = n % size ∧ n / size = p / size) ∨
     (n / size + 1 = p / size ∧ n % size = p % size) ∨
     (p / size + 1 = n / size ∧ n % size = p % size)) := by
  have hpd : size * (p / size) + p % size = p := Nat.div_add_mod p size
  have hpm : p % size < size := Nat.mod_lt p hsz
  have hdlt : p / size < size := by
    rw [Nat.div_lt_iff_lt_mul hsz]; omega
  rcases mem_neighborList.mp hn with ⟨h1, h2⟩ | ⟨h1, h2⟩ | ⟨h1, h2⟩ | ⟨h1, h2⟩
  · -- n = p - 1, same row, one column left
    have hform : n = (p % size - 1) + size * (p / size) := by omega
    have := mdHelp (p % size - 1) (p / size) hsz (by omega)
    rw [← hform] at this
    exact ⟨by omega, Or.inl ⟨by omega, this.2⟩⟩
  · -- n = p + 1, same row, one column right
    have hform : n = (p % size + 1) + size * (p / size) := by omega
    have := mdHelp (p % size + 1) (p / size) hsz (by omega)
    rw [← hform] at this
    have hmul : size * (p / size) ≤ size * (size - 1) :=
      Nat.mul_le_mul_left _ (by omega)
    have hmul2 : size * (size - 1) + size = size * size := by
      rw [← Nat.mul_succ]; congr 1; omega
    exact ⟨by omega, Or.inr (Or.inl ⟨by omega, this.2⟩)⟩
  · -- n = p - size, same column, one row up
    have hd1 : 1 ≤ p / size := by
      rw [Nat.le_div_iff_mul_le hsz]; omega
    have hmul3 : size * (p / size - 1) + size = size * (p / size) := by
      rw [← Nat.mul_succ]; congr 1; omega
    have hform : n = p % size + size * (p / size - 1) := by omega
    have := mdHelp (p % size) (p / size - 1) hsz hpm
    rw [← hform] at this
    exact ⟨by omega, Or.inr (Or.inr (Or.inl ⟨by omega, by omega⟩))⟩
  · -- n = p + size, same column, one row down
    have hform : n = p % size + size * (p / size + 1) := by
      rw [Nat.mul_succ]; omega
    have := mdHelp (p % size) (p / size + 1) hsz hpm
    rw [← hform] at this
    exact ⟨by omega, Or.inr (Or.inr (Or.inr ⟨by omega, this.1⟩))⟩

/-- A neighbor's world cell is 4-adjacent to the cell it came from. -/
theorem neighbor_coordAdj {size total halfSize p n : Nat} (hsz : 0 < size)
    (htot : total = size * size) (hp : p < total)
    (hn : n ∈ neighborList size total p) :
    coordAdj (mkCoord size halfSize n) (mkCoord size halfSize p) = true := by
  obtain ⟨-, h⟩ := neighbor_cells hsz htot hp hn
  rw [mkCoord, mkCoord, coordAdj_qq, decide_eq_true_iff]
  rcases h with ⟨h1, h2⟩ | ⟨h1, h2⟩ | ⟨h1, h2⟩ | ⟨h1, h2⟩
  · refine Or.inl ⟨?_, by rw [Int.cast_inj]; omega⟩
    rw [← Int.cast_sub]
    have : ((n % size : ℤ) - halfSize) - ((p % size : ℤ) - halfSize) = -1 := by omega
    rw [this]; norm_num
  · refine Or.inl ⟨?_, by rw [Int.cast_inj]; omega⟩
    rw [← Int.cast_sub]
    have : ((n % size : ℤ) - halfSize) - ((p % size : ℤ) - halfSize) = 1 := by omega
    rw [this]; norm_num
  · refine Or.inr ⟨?_, by rw [Int.cast_inj]; omega⟩
    rw [← Int.cast_sub]
    have : ((n / size : ℤ) - halfSize) - ((p / size : ℤ) - halfSize) = -1 := by omega
    rw [this]; norm_num
  · refine Or.inr ⟨?_, by rw [Int.cast_inj]; omega⟩
    rw [← Int.cast_sub]
    have : ((n / size : ℤ) - halfSize) - ((p / size : ℤ) - halfSize) = 1 := by omega
    rw [this]; norm_num

theorem mkCoord_inj {size half a b : Nat}
    (h : mkCoord size half a = mkCoord size half b) : a = b := by
  simp only [mkCoord, Coordinates.mk.injEq, JsNum.q.injEq] at h
  obtain ⟨hx, hz⟩ := h
  have hx2 : (a % size : ℤ) - half = (b % size : ℤ) - half := by exact_mod_cast hx
  have hz2 : (a / size : ℤ) - half = (b / size : ℤ) - half := by exact_mod_cast hz
  have hda : size * (a / size) + a % size = a := Nat.div_add_mod a size
  have hdb : size * (b / size) + b % size = b := Nat.div_add_mod b size
  have h1 : a % size = b % size := by omega
  have h2 : a / size = b / size := by omega
  rw [← hda, ← hdb, h1, h2]

/-! ## The A* loop invariant -/

/-- Well-formedness of one `calculateAStar` call's environment: the goal
index is a valid cell distinct from the start, the grid matches the
declared geometry, every weight is positive-or-infinite, and the cached
goal column/row used by the heuristic agree with the goal index. -/
structure EnvOK (env : AStarEnv) (eN : Nat) : Prop where
  hend : env.endIdx = some eN
  heN : eN < env.totalTiles
  hstart : env.startIdx < env.totalTiles
  hne : env.startIdx ≠ eN
  htot : env.totalTiles = env.size * env.size
  hlen : env.grid.length = env.totalTiles
  hsz : 0 < env.size
  hgrid : GridOK env.grid
  hex : env.exq = .q ((eN % env.size : ℕ) : ℚ)
  hez : env.ezq = .q ((eN / env.size : ℕ) : ℚ)

/-- The master invariant of the `aLoop` state.  `nodeTags i / 4 =
currentId` reads "node `i` belongs to the current search generation";
`nodeTags i = currentId * 4 + 2` reads "node `i` is closed (expanded)". -/
structure MINV (env : AStarEnv) (eN : Nat) (s : LoopState) : Prop where
  startLive : s.nodeTags env.startIdx / 4 = env.currentId
  startPar : s.parentIndex env.startIdx = -1
  startG : s.gScore env.startIdx = .q 0
  liveG : ∀ i, s.nodeTags i / 4 = env.currentId →
      i < env.totalTiles ∧ ∃ gi : ℚ, s.gScore i = .q gi ∧ 0 ≤ gi
  chain : ∀ i, s.nodeTags i / 4 = env.currentId → i ≠ env.startIdx →
      ∃ (p : Nat) (gp wi : ℚ),
        s.parentIndex i = (p : ℤ) ∧
        s.nodeTags p = env.currentId * 4 + 2 ∧
        p < env.totalTiles ∧
        i ∈ neighborList env.size env.totalTiles p ∧
        env.grid.getD i .nan = .q wi ∧ 0 < wi ∧
        s.gScore p = .q gp ∧
        s.gScore i = .q (gp + wi)
  heapInv : ∀ en ∈ s.heap.entries, en.idx < env.totalTiles ∧
      s.nodeTags en.idx / 4 = env.currentId ∧
      ∃ ge gi : ℚ, en.g = .q ge ∧ s.gScore en.idx = .q gi ∧ gi ≤ ge
  minHshape : s.minH = .inf ∨ ∃ m : ℚ, s.minH = .q m
  closestRange : s.closestNodeIdx < env.totalTiles
  minHclosed : env.failToClosest = true → ∀ i, s.nodeTags i = env.currentId * 4 + 2 →
      s.minH.le (.q (hMan env.size env.minStep eN i)) = true
  closestSpec : env.failToClosest = true → s.closestNodeIdx ≠ env.startIdx →
      s.nodeTags s.closestNodeIdx = env.currentId * 4 + 2 ∧
      s.minH = .q (hMan env.size env.minStep eN s.closestNodeIdx)
  closestStart : env.failToClosest = true → s.closestNodeIdx = env.startIdx →
      s.minH = .inf ∨ s.minH = .q (hMan env.size env.minStep eN env.startIdx)

/-- Well-formedness of a returned route, as claimed by the spec: non-empty,
ends at the goal cell, consecutive cells are 4-neighbors, every cell is a
grid cell, every non-start cell has finite (hence positive) weight, and the
start cell is included exactly when `includeStartNode` asks for it. -/
def PathWF (size halfSize totalTiles : Nat) (grid : List JsNum)
    (startIdx endIdx : Nat) (incl : Bool) (path : List Coordinates) : Prop :=
  path ≠ [] ∧
  path.getLast? = some (mkCoord size halfSize endIdx) ∧
  List.Chain' (fun a b => coordAdj a b = true) path ∧
  (∀ c ∈ path, ∃ i : Nat, i < totalTiles ∧ c = mkCoord size halfSize i) ∧
  (∀ i : Nat, mkCoord size halfSize i ∈ path → i ≠ startIdx →
      ∃ w : ℚ, grid.getD i .nan = .q w ∧ 0 < w) ∧
  (incl = false → mkCoord size halfSize startIdx ∉ path) ∧
  (incl = false → ∀ c0 ∈ path.head?, coordAdj (mkCoord size halfSize startIdx) c0 = true) ∧
  (incl = true → path.head? = some (mkCoord size halfSize startIdx))

/-- The number of live nodes with a strictly smaller g-score: the rank on
which the predecessor walk terminates. -/
def rankOf (env : AStarEnv) (s : LoopState) (i : Nat) : Nat :=
  ((Finset.range env.totalTiles).filter
    (fun j => s.nodeTags j / 4 = env.currentId ∧ (s.gScore j).lt (s.gScore i) = true)).card

theorem JsNum.lt_irrefl (x : JsNum) : x.lt x = false := by
  cases x <;> simp [JsNum.lt]

theorem rank_parent_lt (env : AStarEnv) (s : LoopState)
    (hliveG : ∀ j, s.nodeTags j / 4 = env.currentId → ∃ gj : ℚ, s.gScore j = .q gj)
    {i p : Nat} (hi : s.nodeTags i / 4 = env.currentId)
    (hp : s.nodeTags p / 4 = env.currentId) (hpt : p < env.totalTiles)
    (hlt : (s.gScore p).lt (s.gScore i) = true) :
    rankOf env s p < rankOf env s i := by
  obtain ⟨gi, hgi⟩ := hliveG i hi
  obtain ⟨gp, hgp⟩ := hliveG p hp
  rw [hgp, hgi, JsNum.lt_q, decide_eq_true_iff] at hlt
  have hsub : (Finset.range env.totalTiles).filter
      (fun j => s.nodeTags j / 4 = env.currentId ∧ (s.gScore j).lt (s.gScore p) = true) ⊆
      (Finset.range env.totalTiles).filter
      (fun j => s.nodeTags j / 4 = env.currentId ∧ (s.gScore j).lt (s.gScore i) = true) := by
    intro j hj
    rw [Finset.mem_filter] at hj ⊢
    obtain ⟨hjr, hjl, hjlt⟩ := hj
    obtain ⟨gj, hgj⟩ := hliveG j hjl
    rw [hgj, hgp, JsNum.lt_q, decide_eq_true_iff] at hjlt
    exact ⟨hjr, hjl, by rw [hgj, hgi, JsNum.lt_q, decide_eq_true_iff]; linarith⟩
  have hmem : p ∈ (Finset.range env.totalTiles).filter
      (fun j => s.nodeTags j / 4 = env.currentId ∧ (s.gScore j).lt (s.gScore i) = true) := by
    rw [Finset.mem_filter, Finset.mem_range]
    exact ⟨hpt, hp, by rw [hgp, hgi, JsNum.lt_q, decide_eq_true_iff]; exact hlt⟩
  have hnot : p ∉ (Finset.range env.totalTiles).filter
      (fun j => s.nodeTags j / 4 = env.currentId ∧ (s.gScore j).lt (s.gScore p) = true) := by
    rw [Finset.mem_filter]
    rintro ⟨-, -, habs⟩
    rw [JsNum.lt_irrefl] at habs
    cases habs
  exact Finset.card_lt_card ((Finset.ssubset_iff_of_subset hsub).mpr ⟨p, hmem, hnot⟩)

theorem rank_lt_total (env : AStarEnv) (s : LoopState) {t : Nat}
    (htt : t < env.totalTiles) : rankOf env s t < env.totalTiles := by
  have hnot : t ∉ (Finset.range env.totalTiles).filter
      (fun j => s.nodeTags j / 4 = env.currentId ∧ (s.gScore j).lt (s.gScore t) = true) := by
    rw [Finset.mem_filter]
    rintro ⟨-, -, habs⟩
    rw [JsNum.lt_irrefl] at habs
    cases habs
  have hss := (Finset.ssubset_iff_of_subset (Finset.filter_subset _ _)).mpr
    ⟨t, Finset.mem_range.mpr htt, hnot⟩
  have := Finset.card_lt_card hss
  rwa [Finset.card_range] at this

theorem reconWalk_neg1 (size halfSize total : Nat) (tags : Nat → Nat)
    (par : Nat → Int) (cid : Nat) (fuel : Nat) :
    reconWalk size halfSize total tags par cid (-1) fuel = [] := by
  cases fuel <;> simp [reconWalk]

/-- The predecessor walk from a live node returns the `mkCoord` image of an
index chain that starts at the node, ends at the start node, stays live and
in range, follows the parent links through 4-neighbors, and visits the
start only as its last element. -/
theorem reconWalk_spec (env : AStarEnv) (s : LoopState)
    (hstartPar : s.parentIndex env.startIdx = -1)
    (hliveG : ∀ j, s.nodeTags j / 4 = env.currentId → ∃ gj : ℚ, s.gScore j = .q gj)
    (hchainW : ∀ i, s.nodeTags i / 4 = env.currentId → i ≠ env.startIdx →
      ∃ p : Nat, s.parentIndex i = (p : ℤ) ∧ s.nodeTags p / 4 = env.currentId ∧
        p < env.totalTiles ∧ i ∈ neighborList env.size env.totalTiles p ∧
        (s.gScore p).lt (s.gScore i) = true) :
    ∀ (fuel t : Nat), s.nodeTags t / 4 = env.currentId → t < env.totalTiles →
      rankOf env s t < fuel →
      ∃ idxs : List Nat,
        reconWalk env.size env.halfSize env.totalTiles s.nodeTags s.parentIndex
          env.currentId (t : Int) fuel = idxs.map (mkCoord env.size env.halfSize) ∧
        idxs.head? = some t ∧
        idxs.getLast? = some env.startIdx ∧
        (∀ i ∈ idxs, s.nodeTags i / 4 = env.currentId ∧ i < env.totalTiles) ∧
        List.Chain' (fun a b => s.parentIndex a = (b : ℤ) ∧ b < env.totalTiles ∧
          a ∈ neighborList env.size env.totalTiles b) idxs ∧
        (∀ i ∈ idxs.dropLast, i ≠ env.startIdx) := by
  intro fuel
  induction fuel with
  | zero => intro t _ _ hr; omega
  | succ fuel ih =>
    intro t ht htt hr
    have hstep : reconWalk env.size env.halfSize env.totalTiles s.nodeTags
        s.parentIndex env.currentId (t : Int) (fuel + 1) =
        mkCoord env.size env.halfSize t ::
          reconWalk env.size env.halfSize env.totalTiles s.nodeTags s.parentIndex
            env.currentId (s.parentIndex t) fuel := by
      rw [reconWalk]
      rw [if_neg (show ¬((t : ℤ) = -1) by omega)]
      dsimp only
      rw [if_pos (show (0 : ℤ) ≤ (t : ℤ) ∧ (t : ℤ) < (env.totalTiles : ℤ) from
        ⟨by omega, by omega⟩)]
      rw [Int.toNat_natCast]
      rw [if_neg (show ¬(s.nodeTags t / 4 ≠ env.currentId) from fun h => h ht)]
    by_cases hts : t = env.startIdx
    · subst hts
      rw [hstep, hstartPar, reconWalk_neg1]
      refine ⟨[env.startIdx], rfl, rfl, rfl, ?_, List.chain'_singleton _, ?_⟩
      · intro i hi
        rw [List.mem_singleton] at hi
        subst hi
        exact ⟨ht, htt⟩
      · intro i hi
        simp at hi
    · obtain ⟨p, hpar, hpl, hpt, hnb, hplt⟩ := hchainW t ht hts
      have hrp : rankOf env s p < fuel :=
        lt_of_lt_of_le (rank_parent_lt env s hliveG ht hpl hpt hplt) (by omega)
      obtain ⟨idxs', he', hh', hl', hm', hc', hd'⟩ := ih p hpl hpt hrp
      cases idxs' with
      | nil => cases hh'
      | cons a rest =>
        have hap : a = p := by
          rw [List.head?_cons] at hh'
          injection hh'
        subst hap
        refine ⟨t :: a :: rest, ?_, rfl, ?_, ?_, ?_, ?_⟩
        · rw [hstep, hpar, he']
          rfl
        · rw [List.getLast?_cons_cons]
          exact hl'
        · intro i hi
          rcases List.mem_cons.mp hi with hi | hi
          · subst hi; exact ⟨ht, htt⟩
          · exact hm' i hi
        · exact List.Chain'.cons ⟨hpar, hpt, hnb⟩ hc'
        · rw [List.dropLast_cons₂]
          intro i hi
          rcases List.mem_cons.mp hi with hi | hi
          · subst hi; exact hts
          · exact hd' i hi

theorem coordAdj_symm (a b : Coordinates) : coordAdj a b = coordAdj b a := by
  rcases a with ⟨ax, az⟩
  rcases b with ⟨bx, bz⟩
  cases ax <;> cases az <;> cases bx <;> cases bz <;>
    simp only [coordAdj] <;>
    try rfl
  rw [decide_eq_decide]
  constructor <;> rintro (⟨h1, h2⟩ | ⟨h1, h2⟩)
  · exact Or.inl ⟨by rw [abs_sub_comm]; exact h1, h2.symm⟩
  · exact Or.inr ⟨by rw [abs_sub_comm]; exact h1, h2.symm⟩
  · exact Or.inl ⟨by rw [abs_sub_comm]; exact h1, h2.symm⟩
  · exact Or.inr ⟨by rw [abs_sub_comm]; exact h1, h2.symm⟩

theorem reverse_drop_one {α : Type} (l : List α) :
    l.reverse.drop 1 = l.dropLast.reverse := by
  induction l using List.reverseRecOn with
  | nil => rfl
  | append_singleton l a ih =>
    rw [List.reverse_append, List.dropLast_concat]
    rfl

theorem map_dropLast {α β : Type} (f : α → β) :
    ∀ l : List α, (l.map f).dropLast = l.dropLast.map f := by
  intro l
  induction l with
  | nil => rfl
  | cons a tl ih =>
    cases tl with
    | nil => rfl
    | cons b tl2 =>
      simp only [List.map_cons] at ih ⊢
      rw [List.dropLast_cons₂, List.dropLast_cons₂, ih, List.map_cons]

theorem head?_dropLast {α : Type} (l : List α) (h : 2 ≤ l.length) :
    l.dropLast.head? = l.head? := by
  match l, h with
  | a :: b :: tl, _ => rw [List.dropLast_cons₂]; rfl

/-- Reconstructing from a live non-start node yields a well-formed route
ending at that node. -/
theorem reconstruct_wf (env : AStarEnv) (eN : Nat) (hE : EnvOK env eN)
    (s : LoopState) (hM : MINV env eN s) (t : Nat)
    (ht : s.nodeTags t / 4 = env.currentId) (htt : t < env.totalTiles)
    (hts : t ≠ env.startIdx) :
    PathWF env.size env.halfSize env.totalTiles env.grid env.startIdx t
      env.includeStart
      (reconstructPath env.size env.halfSize env.totalTiles s.parentIndex
        env.includeStart s.nodeTags env.currentId t) := by
  have hliveG : ∀ j, s.nodeTags j / 4 = env.currentId →
      ∃ gj : ℚ, s.gScore j = .q gj := by
    intro j hj
    obtain ⟨-, gj, hgj, -⟩ := hM.liveG j hj
    exact ⟨gj, hgj⟩
  have hchainW : ∀ i, s.nodeTags i / 4 = env.currentId → i ≠ env.startIdx →
      ∃ p : Nat, s.parentIndex i = (p : ℤ) ∧ s.nodeTags p / 4 = env.currentId ∧
        p < env.totalTiles ∧ i ∈ neighborList env.size env.totalTiles p ∧
        (s.gScore p).lt (s.gScore i) = true := by
    intro i hi his
    obtain ⟨p, gp, wi, hpar, hpc, hpt, hnb, hgw, hwpos, hgp, hgi⟩ := hM.chain i hi his
    refine ⟨p, hpar, by omega, hpt, hnb, ?_⟩
    rw [hgp, hgi, JsNum.lt_q, decide_eq_true_iff]
    linarith
  obtain ⟨idxs, hwe, hh, hl, hm, hc, hd⟩ :=
    reconWalk_spec env s hM.startPar hliveG hchainW env.totalTiles t ht htt
      (rank_lt_total env s htt)
  have hne : idxs ≠ [] := by
    intro h; rw [h] at hh; cases hh
  have hlen2 : 2 ≤ idxs.length := by
    cases idxs with
    | nil => cases hh
    | cons a tl =>
      cases tl with
      | nil =>
        rw [List.head?_cons] at hh
        injection hh with hh
        have hl2 : a = env.startIdx := by
          rw [show ([a] : List Nat).getLast? = some a from rfl] at hl
          injection hl
        exact absurd (hh ▸ hl2) hts
      | cons b tl2 => simp
  have hgl : idxs.getLast hne = env.startIdx := by
    have h2 := List.getLast?_eq_getLast idxs hne
    rw [h2] at hl
    injection hl
  have hsplit : idxs.dropLast ++ [env.startIdx] = idxs := by
    conv_rhs => rw [← List.dropLast_append_getLast hne, hgl]
  have hcsplit := hc
  rw [← hsplit, List.chain'_append] at hcsplit
  obtain ⟨hcDL, -, hlink⟩ := hcsplit
  have hsz := hE.hsz
  have htot := hE.htot
  have hcells : ∀ c ∈ idxs.map (mkCoord env.size env.halfSize),
      ∃ i, i < env.totalTiles ∧ c = mkCoord env.size env.halfSize i := by
    intro c hcm
    obtain ⟨i, hi, hrfl⟩ := List.mem_map.mp hcm
    exact ⟨i, (hm i hi).2, hrfl.symm⟩
  have hweights : ∀ i, mkCoord env.size env.halfSize i ∈
      idxs.map (mkCoord env.size env.halfSize) → i ≠ env.startIdx →
      ∃ w : ℚ, env.grid.getD i .nan = .q w ∧ 0 < w := by
    intro i him his
    obtain ⟨j, hj, hji⟩ := List.mem_map.mp him
    have hji2 := mkCoord_inj hji
    subst hji2
    obtain ⟨p, gp, wi, -, -, -, -, hgw, hwpos, -, -⟩ := hM.chain j (hm j hj).1 his
    exact ⟨wi, hgw, hwpos⟩
  have hcA : List.Chain' (fun x y => coordAdj x y = true)
      (idxs.map (mkCoord env.size env.halfSize)) := by
    rw [List.chain'_map]
    exact hc.imp (fun a b hab => neighbor_coordAdj hsz htot hab.2.1 hab.2.2)
  rw [reconstructPath]
  rw [hwe]
  cases hincl : env.includeStart with
  | true =>
    simp only [hincl, Bool.not_true, Bool.false_and, Bool.false_eq_true, if_false]
    refine ⟨?_, ?_, ?_, ?_, ?_, by simp, by simp, ?_⟩
    · simp only [ne_eq, List.reverse_eq_nil_iff, List.map_eq_nil_iff]
      exact hne
    · rw [List.getLast?_reverse, List.head?_map, hh]
      rfl
    · rw [List.chain'_reverse]
      exact hcA.imp (fun a b hab =>
        show coordAdj b a = true by rw [coordAdj_symm]; exact hab)
    · intro c hcm
      exact hcells c (List.mem_reverse.mp hcm)
    · intro i him his
      exact hweights i (List.mem_reverse.mp him) his
    · intro _
      rw [List.head?_reverse, List.getLast?_map, hl]
      rfl
  | false =>
    have hpos : 0 < (idxs.map (mkCoord env.size env.halfSize)).reverse.length := by
      rw [List.length_reverse, List.length_map]
      omega
    simp only [hincl, Bool.not_false, Bool.true_and]
    rw [if_pos (show decide (0 < (idxs.map (mkCoord env.size env.halfSize)).reverse.length)
      = true by rw [decide_eq_true_iff]; exact hpos)]
    rw [reverse_drop_one, map_dropLast]
    have hDLne : idxs.dropLast ≠ [] := by
      have := List.length_dropLast idxs
      intro habs
      rw [habs] at this
      simp at this
      omega
    refine ⟨?_, ?_, ?_, ?_, ?_, ?_, ?_, by simp⟩
    · simp only [ne_eq, List.reverse_eq_nil_iff, List.map_eq_nil_iff]
      exact hDLne
    · rw [List.getLast?_reverse, List.head?_map, head?_dropLast idxs hlen2, hh]
      rfl
    · rw [List.chain'_reverse]
      have hcADL : List.Chain' (fun x y => coordAdj x y = true)
          (idxs.dropLast.map (mkCoord env.size env.halfSize)) := by
        rw [List.chain'_map]
        exact hcDL.imp (fun a b hab => neighbor_coordAdj hsz htot hab.2.1 hab.2.2)
      exact hcADL.imp (fun a b hab =>
        show coordAdj b a = true by rw [coordAdj_symm]; exact hab)
    · intro c hcm
      obtain ⟨i, hi, hrfl⟩ := List.mem_map.mp (List.mem_reverse.mp hcm)
      exact ⟨i, (hm i (List.dropLast_subset _ hi)).2, hrfl.symm⟩
    · intro i him his
      obtain ⟨j, hj, hji⟩ := List.mem_map.mp (List.mem_reverse.mp him)
      have hji2 := mkCoord_inj hji
      subst hji2
      obtain ⟨p, gp, wi, -, -, -, -, hgw, hwpos, -, -⟩ :=
        hM.chain j (hm j (List.dropLast_subset _ hj)).1 his
      exact ⟨wi, hgw, hwpos⟩
    · intro _
      intro habs
      obtain ⟨j, hj, hji⟩ := List.mem_map.mp (List.mem_reverse.mp habs)
      exact hd j hj (mkCoord_inj hji)
    · intro _
      intro c0 hc0
      rw [List.head?_reverse, List.getLast?_map,
        List.getLast?_eq_getLast _ hDLne] at hc0
      have hx := hlink (idxs.dropLast.getLast hDLne)
        (by rw [List.getLast?_eq_getLast _ hDLne]; rfl)
        env.startIdx rfl
      obtain ⟨-, -, hnbx⟩ := hx
      have hadj := @neighbor_coordAdj env.size env.totalTiles env.halfSize
        env.startIdx (idxs.dropLast.getLast hDLne) hsz htot hE.hstart hnbx
      rw [Option.mem_def] at hc0
      injection hc0 with hc0
      rw [← hc0, coordAdj_symm]
      exact hadj

/-- The first-touch reset of a stale neighbor preserves the invariant. -/
theorem reset_MINV (env : AStarEnv) (eN : Nat) (s : LoopState)
    (hM : MINV env eN s) (n : Nat)
    (hstale : s.nodeTags n / 4 ≠ env.currentId) :
    MINV env eN { s with gScore := Function.update s.gScore n .inf,
                         parentIndex := Function.update s.parentIndex n (-1) } := by
  have hns : n ≠ env.startIdx := fun h => hstale (h ▸ hM.startLive)
  refine ⟨hM.startLive, ?_, ?_, ?_, ?_, ?_, hM.minHshape, hM.closestRange,
    hM.minHclosed, hM.closestSpec, hM.closestStart⟩
  · dsimp only
    rw [Function.update_noteq (Ne.symm hns)]
    exact hM.startPar
  · dsimp only
    rw [Function.update_noteq (Ne.symm hns)]
    exact hM.startG
  · intro i hi
    dsimp only at hi ⊢
    have hin : i ≠ n := fun h => hstale (h ▸ hi)
    rw [Function.update_noteq hin]
    exact hM.liveG i hi
  · intro i hi his
    dsimp only at hi ⊢
    have hin : i ≠ n := fun h => hstale (h ▸ hi)
    obtain ⟨p, gp, wi, h1, h2, h3, h4, h5, h6, h7, h8⟩ := hM.chain i hi his
    have hpn : p ≠ n := fun h => hstale (by rw [← h] at hstale ⊢; omega)
    refine ⟨p, gp, wi, ?_, h2, h3, h4, h5, h6, ?_, ?_⟩
    · rw [Function.update_noteq hin]; exact h1
    · rw [Function.update_noteq hpn]; exact h7
    · rw [Function.update_noteq hin]; exact h8
  · intro en hen
    dsimp only at hen ⊢
    obtain ⟨h1, h2, ge, gi, h3, h4, h5⟩ := hM.heapInv en hen
    have hein : en.idx ≠ n := fun h => hstale (h ▸ h2)
    rw [Function.update_noteq hein]
    exact ⟨h1, h2, ge, gi, h3, h4, h5⟩

/-- A successful relaxation of neighbor `n` from the closed node `cIdx`
preserves the invariant. -/
theorem relaxD_MINV (env : AStarEnv) (eN : Nat) (hE : EnvOK env eN)
    (s : LoopState) (hM : MINV env eN s) (cIdx n : Nat) (gc w : ℚ) (f : JsNum)
    (hct : cIdx < env.totalTiles) (hnt : n < env.totalTiles) (hnc : n ≠ cIdx)
    (hcl : s.nodeTags cIdx = env.currentId * 4 + 2)
    (hg : s.gScore cIdx = .q gc) (hgc : 0 ≤ gc)
    (hnotclosed : s.nodeTags n ≠ env.currentId * 4 + 2)
    (hnb : n ∈ neighborList env.size env.totalTiles cIdx)
    (hwq : env.grid.getD n .nan = .q w) (hw : 0 < w)
    (hless : ∀ gi : ℚ, s.nodeTags n / 4 = env.currentId → s.gScore n = .q gi →
      gc + w < gi) :
    MINV env eN
      { gScore := Function.update s.gScore n (.q (gc + w)),
        parentIndex := Function.update s.parentIndex n (cIdx : Int),
        nodeTags := Function.update s.nodeTags n (env.currentId * 4 + 1),
        heap := s.heap.push n f (.q (gc + w)),
        closestNodeIdx := s.closestNodeIdx,
        minH := s.minH } := by
  have hcn : cIdx ≠ n := Ne.symm hnc
  have hns : n ≠ env.startIdx := by
    intro h
    subst h
    exact absurd (hless 0 hM.startLive hM.startG) (by linarith)
  refine ⟨?_, ?_, ?_, ?_, ?_, ?_, hM.minHshape, hM.closestRange, ?_, ?_, hM.closestStart⟩
  · dsimp only
    rw [Function.update_noteq (Ne.symm hns)]
    exact hM.startLive
  · dsimp only
    rw [Function.update_noteq (Ne.symm hns)]
    exact hM.startPar
  · dsimp only
    rw [Function.update_noteq (Ne.symm hns)]
    exact hM.startG
  · intro i hi
    dsimp only at hi ⊢
    by_cases hin : i = n
    · subst hin
      rw [Function.update_same]
      exact ⟨hnt, gc + w, rfl, by linarith⟩
    · rw [Function.update_noteq hin] at hi
      rw [Function.update_noteq hin]
      exact hM.liveG i hi
  · intro i hi his
    dsimp only at hi ⊢
    by_cases hin : i = n
    · subst hin
      refine ⟨cIdx, gc, w, ?_, ?_, hct, hnb, hwq, hw, ?_, ?_⟩
      · rw [Function.update_same]
      · rw [Function.update_noteq hcn]
        exact hcl
      · rw [Function.update_noteq hcn]
        exact hg
      · rw [Function.update_same]
    · rw [Function.update_noteq hin] at hi
      obtain ⟨p, gp, wi, h1, h2, h3, h4, h5, h6, h7, h8⟩ := hM.chain i hi his
      have hpn : p ≠ n := fun h => hnotclosed (h ▸ h2)
      refine ⟨p, gp, wi, ?_, ?_, h3, h4, h5, h6, ?_, ?_⟩
      · rw [Function.update_noteq hin]; exact h1
      · rw [Function.update_noteq hpn]; exact h2
      · rw [Function.update_noteq hpn]; exact h7
      · rw [Function.update_noteq hin]; exact h8
  · intro en hen
    dsimp only at hen ⊢
    rcases push_mem en hen with hold | hnew
    · obtain ⟨h1, h2, ge, gi, h3, h4, h5⟩ := hM.heapInv en hold
      by_cases hein : en.idx = n
      · rw [hein] at h2 h4 ⊢
        rw [Function.update_same, Function.update_same]
        refine ⟨hnt, by omega, ge, gc + w, h3, rfl, ?_⟩
        have := hless gi h2 h4
        linarith
      · rw [Function.update_noteq hein, Function.update_noteq hein]
        exact ⟨h1, h2, ge, gi, h3, h4, h5⟩
    · subst hnew
      dsimp only
      rw [Function.update_same, Function.update_same]
      exact ⟨hnt, by omega, gc + w, gc + w, rfl, rfl, le_refl _⟩
  · intro hftc i hclosed
    dsimp only at hclosed ⊢
    have hin : i ≠ n := by
      intro h
      rw [h, Function.update_same] at hclosed
      omega
    rw [Function.update_noteq hin] at hclosed
    exact hM.minHclosed hftc i hclosed
  · intro hftc hcs
    dsimp only at hcs ⊢
    obtain ⟨hcc, hmh⟩ := hM.closestSpec hftc hcs
    have hcnn : s.closestNodeIdx ≠ n := fun h => hnotclosed (h ▸ hcc)
    rw [Function.update_noteq hcnn]
    exact ⟨hcc, hmh⟩

/-- One neighbor-relaxation step from a closed node preserves the
invariant, keeps the node closed and keeps its g-score. -/
theorem relax_step (env : AStarEnv) (eN : Nat) (hE : EnvOK env eN)
    (cIdx : Nat) (gc : ℚ) (hct : cIdx < env.totalTiles)
    (s : LoopState) (hM : MINV env eN s)
    (hcl : s.nodeTags cIdx = env.currentId * 4 + 2)
    (hg : s.gScore cIdx = .q gc)
    (n : Nat) (hn : n ∈ neighborList env.size env.totalTiles cIdx) :
    MINV env eN (relaxNeighbor env cIdx (.q gc) s n) ∧
    (relaxNeighbor env cIdx (.q gc) s n).nodeTags cIdx = env.currentId * 4 + 2 ∧
    (relaxNeighbor env cIdx (.q gc) s n).gScore cIdx = .q gc := by
  have hnt : n < env.totalTiles := (neighbor_cells hE.hsz hE.htot hct hn).1
  have hgc : 0 ≤ gc := by
    obtain ⟨-, gi, hgi, hpos⟩ := hM.liveG cIdx (by omega)
    rw [hg] at hgi
    injection hgi with hgi
    rw [hgi]
    exact hpos
  rw [relaxNeighbor]
  dsimp only
  by_cases hA : s.nodeTags n / 4 = env.currentId ∧ s.nodeTags n % 4 = 2
  · rw [if_pos hA]
    exact ⟨hM, hcl, hg⟩
  · rw [if_neg hA]
    have hnotclosed : s.nodeTags n ≠ env.currentId * 4 + 2 := by
      intro h
      exact hA ⟨by omega, by omega⟩
    have hnc : n ≠ cIdx := fun h => hnotclosed (h ▸ hcl)
    cases hw : (env.grid.getD n .nan).isFinite with
    | false =>
      rw [if_pos (show (!false) = true from rfl)]
      exact ⟨hM, hcl, hg⟩
    | true =>
      obtain ⟨w, hwq⟩ := (JsNum.isFinite_iff _).mp hw
      have hwpos : 0 < w := by
        have hmem : env.grid.getD n .nan ∈ env.grid := by
          rw [List.getD_eq_getElem?_getD,
            List.getElem?_eq_getElem (by rw [hE.hlen]; exact hnt)]
          exact List.getElem_mem _
        have h2 := hE.hgrid _ hmem
        rw [hwq] at h2
        simp only [wOK] at h2
        exact of_decide_eq_true h2
      rw [if_neg (show ¬((!true) = true) by simp)]
      rw [hwq]
      simp only [JsNum.add_q]
      by_cases hFT : s.nodeTags n / 4 ≠ env.currentId
      · rw [if_pos hFT]
        have hMR := reset_MINV env eN s hM n hFT
        by_cases hC : (JsNum.q (gc + w)).gt (.q FLOAT32_SAFE_LIMIT) = true
        · rw [if_pos hC]
          refine ⟨hMR, hcl, ?_⟩
          dsimp only
          rw [Function.update_noteq (Ne.symm hnc)]
          exact hg
        · rw [if_neg hC]
          dsimp only
          rw [if_pos (show (JsNum.q (gc + w)).lt
              (Function.update s.gScore n JsNum.inf n) = true by
            rw [Function.update_same]; rfl)]
          have hlessR : ∀ gi : ℚ, s.nodeTags n / 4 = env.currentId →
              Function.update s.gScore n JsNum.inf n = .q gi → gc + w < gi := by
            intro gi hlv _
            exact absurd hlv hFT
          refine ⟨relaxD_MINV env eN hE _ hMR cIdx n gc w _ hct hnt hnc hcl
            (by dsimp only; rw [Function.update_noteq (Ne.symm hnc)]; exact hg)
            hgc hnotclosed hn hwq hwpos hlessR, ?_, ?_⟩
          · dsimp only
            rw [Function.update_noteq (Ne.symm hnc)]
            exact hcl
          · dsimp only
            rw [Function.update_idem, Function.update_noteq (Ne.symm hnc)]
            exact hg
      · rw [if_neg hFT]
        by_cases hC : (JsNum.q (gc + w)).gt (.q FLOAT32_SAFE_LIMIT) = true
        · rw [if_pos hC]
          exact ⟨hM, hcl, hg⟩
        · rw [if_neg hC]
          by_cases hD : (JsNum.q (gc + w)).lt (s.gScore n) = true
          · rw [if_pos hD]
            have hless : ∀ gi : ℚ, s.nodeTags n / 4 = env.currentId →
                s.gScore n = .q gi → gc + w < gi := by
              intro gi _ hgi
              rw [hgi, JsNum.lt_q, decide_eq_true_iff] at hD
              exact hD
            refine ⟨relaxD_MINV env eN hE s hM cIdx n gc w _ hct hnt hnc hcl hg
              hgc hnotclosed hn hwq hwpos hless, ?_, ?_⟩
            · dsimp only
              rw [Function.update_noteq (Ne.symm hnc)]
              exact hcl
            · dsimp only
              rw [Function.update_noteq (Ne.symm hnc)]
              exact hg
          · rw [if_neg hD]
            exact ⟨hM, hcl, hg⟩

/-- Folding the neighbor loop over any neighbor sublist preserves the
invariant. -/
theorem relaxFold_MINV (env : AStarEnv) (eN : Nat) (hE : EnvOK env eN)
    (cIdx : Nat) (gc : ℚ) (hct : cIdx < env.totalTiles) :
    ∀ (ns : List Nat) (s : LoopState),
      (∀ n ∈ ns, n ∈ neighborList env.size env.totalTiles cIdx) →
      MINV env eN s → s.nodeTags cIdx = env.currentId * 4 + 2 →
      s.gScore cIdx = .q gc →
      MINV env eN (ns.foldl (relaxNeighbor env cIdx (.q gc)) s) := by
  intro ns
  induction ns with
  | nil => intro s _ hM _ _; exact hM
  | cons n ns ih =>
    intro s hns hM hcl hg
    rw [List.foldl_cons]
    have key := relax_step env eN hE cIdx gc hct s hM hcl hg n (hns n (by simp))
    exact ih _ (fun m hm => hns m (by simp [hm])) key.1 key.2.1 key.2.2

theorem JsNum.le_q (a b : ℚ) : JsNum.le (.q a) (.q b) = decide (a ≤ b) := rfl

/-- The heuristic term computed by the loop, as a rational. -/
theorem hTerm_eq (env : AStarEnv) (eN : Nat)
    (hex : env.exq = .q ((eN % env.size : ℕ) : ℚ))
    (hez : env.ezq = .q ((eN / env.size : ℕ) : ℚ)) (i : Nat) :
    (((JsNum.q (i % env.size : ℕ)).sub env.exq).abs.add
      (((JsNum.q (i / env.size : ℕ))).sub env.ezq).abs).mul (.q env.minStep)
      = .q (hMan env.size env.minStep eN i) := by
  rw [hex, hez]
  rfl

/-- The closest-node update followed by the closing tag write, exactly as
in the loop body. -/
def closeStep (env : AStarEnv) (s : LoopState) (currentIdx : Nat) : LoopState :=
  let s :=
    if env.failToClosest then
      let cX := currentIdx % env.size
      let cZ := currentIdx / env.size
      let h := (((JsNum.q cX).sub env.exq).abs.add
        (((JsNum.q cZ).sub env.ezq)).abs).mul (.q env.minStep)
      if h.lt s.minH then { s with minH := h, closestNodeIdx := currentIdx }
      else s
    else s
  { s with nodeTags := Function.update s.nodeTags currentIdx (env.currentId * 4 + 2) }

/-- Popping the heap preserves the invariant. -/
theorem popheap_MINV (env : AStarEnv) (eN : Nat) (s : LoopState)
    (hM : MINV env eN s) (h' : Heap)
    (hsub : ∀ e ∈ h'.entries, e ∈ s.heap.entries) :
    MINV env eN { s with heap := h' } := by
  refine ⟨hM.startLive, hM.startPar, hM.startG, hM.liveG, hM.chain, ?_,
    hM.minHshape, hM.closestRange, hM.minHclosed, hM.closestSpec, hM.closestStart⟩
  intro en hen
  exact hM.heapInv en (hsub en hen)

/-- Closing a live, not-yet-closed node, with arbitrary new closest/minH
data satisfying the C9 obligations, preserves the invariant. -/
theorem closeTagGen_MINV (env : AStarEnv) (eN : Nat) (s : LoopState)
    (hM : MINV env eN s) (c : Nat) (mh' : JsNum) (cs' : Nat)
    (hct : c < env.totalTiles)
    (hlive : s.nodeTags c / 4 = env.currentId)
    (hnotcl : s.nodeTags c % 4 ≠ 2)
    (h1 : env.failToClosest = true → ∀ i, s.nodeTags i = env.currentId * 4 + 2 →
      mh'.le (.q (hMan env.size env.minStep eN i)) = true)
    (h2 : env.failToClosest = true →
      mh'.le (.q (hMan env.size env.minStep eN c)) = true)
    (h3 : env.failToClosest = true → cs' ≠ env.startIdx →
      (cs' = c ∨ s.nodeTags cs' = env.currentId * 4 + 2) ∧
      mh' = .q (hMan env.size env.minStep eN cs'))
    (h4 : env.failToClosest = true → cs' = env.startIdx →
      mh' = .inf ∨ mh' = .q (hMan env.size env.minStep eN env.startIdx))
    (h5 : mh' = .inf ∨ ∃ m : ℚ, mh' = .q m)
    (h6 : cs' < env.totalTiles) :
    MINV env eN
      { gScore := s.gScore, parentIndex := s.parentIndex,
        nodeTags := Function.update s.nodeTags c (env.currentId * 4 + 2),
        heap := s.heap, closestNodeIdx := cs', minH := mh' } := by
  refine ⟨?_, hM.startPar, hM.startG, ?_, ?_, ?_, h5, h6, ?_, ?_, h4⟩
  · dsimp only
    by_cases hsc : env.startIdx = c
    · rw [hsc, Function.update_same]; omega
    · rw [Function.update_noteq hsc]; exact hM.startLive
  · intro i hi
    dsimp only at hi ⊢
    by_cases hic : i = c
    · subst hic
      exact hM.liveG i hlive
    · rw [Function.update_noteq hic] at hi
      exact hM.liveG i hi
  · intro i hi his
    dsimp only at hi ⊢
    by_cases hic : i = c
    · subst hic
      obtain ⟨p, gp, wi, k1, k2, k3, k4, k5, k6, k7, k8⟩ := hM.chain i hlive his
      have hpc : p ≠ i := by
        intro h
        rw [h] at k2
        omega
      exact ⟨p, gp, wi, k1, by rw [Function.update_noteq hpc]; exact k2,
        k3, k4, k5, k6, k7, k8⟩
    · rw [Function.update_noteq hic] at hi
      obtain ⟨p, gp, wi, k1, k2, k3, k4, k5, k6, k7, k8⟩ := hM.chain i hi his
      refine ⟨p, gp, wi, k1, ?_, k3, k4, k5, k6, k7, k8⟩
      by_cases hpc : p = c
      · rw [hpc, Function.update_same]
      · rw [Function.update_noteq hpc]; exact k2
  · intro en hen
    dsimp only at hen ⊢
    obtain ⟨k1, k2, ge, gi, k3, k4, k5⟩ := hM.heapInv en hen
    refine ⟨k1, ?_, ge, gi, k3, k4, k5⟩
    by_cases hec : en.idx = c
    · rw [hec, Function.update_same]; omega
    · rw [Function.update_noteq hec]; exact k2
  · intro hftc i hi
    dsimp only at hi
    by_cases hic : i = c
    · subst hic
      exact h2 hftc
    · rw [Function.update_noteq hic] at hi
      exact h1 hftc i hi
  · intro hftc hcs
    dsimp only at hcs ⊢
    obtain ⟨hcc, hmh⟩ := h3 hftc hcs
    refine ⟨?_, hmh⟩
    by_cases hcsc : cs' = c
    · rw [hcsc, Function.update_same]
    · rw [Function.update_noteq hcsc]
      rcases hcc with h | h
      · exact absurd h hcsc
      · exact h

/-- Expanding a just-popped node (closest-node bookkeeping followed by the
closing tag write) preserves the invariant and leaves the scores, parents
and heap untouched. -/
theorem minHclose_MINV (env : AStarEnv) (eN : Nat) (hE : EnvOK env eN)
    (s : LoopState) (hM : MINV env eN s) (c : Nat) (hct : c < env.totalTiles)
    (hlive : s.nodeTags c / 4 = env.currentId)
    (hnotcl : s.nodeTags c % 4 ≠ 2) :
    MINV env eN (closeStep env s c) ∧
    (closeStep env s c).nodeTags c = env.currentId * 4 + 2 ∧
    (closeStep env s c).gScore = s.gScore ∧
    (closeStep env s c).parentIndex = s.parentIndex ∧
    (closeStep env s c).heap = s.heap := by
  rw [closeStep]
  cases hftc : env.failToClosest with
  | false =>
    rw [if_neg (by simp)]
    have hcf : env.failToClosest ≠ true := by rw [hftc]; simp
    refine ⟨closeTagGen_MINV env eN s hM c s.minH s.closestNodeIdx hct hlive hnotcl
      (fun h => absurd h hcf) (fun h => absurd h hcf) (fun h => absurd h hcf)
      (fun h => absurd h hcf) hM.minHshape hM.closestRange, ?_, rfl, rfl, rfl⟩
    dsimp only
    rw [Function.update_same]
  | true =>
    rw [if_pos rfl]
    dsimp only
    rw [hTerm_eq env eN hE.hex hE.hez c]
    by_cases hlt : (JsNum.q (hMan env.size env.minStep eN c)).lt s.minH = true
    · rw [if_pos hlt]
      refine ⟨closeTagGen_MINV env eN s hM c (.q (hMan env.size env.minStep eN c)) c
        hct hlive hnotcl ?_ ?_ ?_ ?_ ?_ hct, ?_, rfl, rfl, rfl⟩
      · intro _ i hi
        have hold := hM.minHclosed hftc i hi
        rcases hM.minHshape with hsh | ⟨m, hsh⟩
        · rw [hsh] at hold
          exact absurd hold (by simp [JsNum.le])
        · rw [hsh] at hold hlt
          rw [JsNum.le_q, decide_eq_true_iff] at hold
          rw [JsNum.lt_q, decide_eq_true_iff] at hlt
          rw [JsNum.le_q, decide_eq_true_iff]
          linarith
      · intro _
        rw [JsNum.le_q]
        simp
      · intro _ _
        exact ⟨Or.inl rfl, rfl⟩
      · intro _ hcstart
        right
        rw [hcstart]
      · exact Or.inr ⟨_, rfl⟩
      · dsimp only
        rw [Function.update_same]
    · rw [if_neg hlt]
      refine ⟨closeTagGen_MINV env eN s hM c s.minH s.closestNodeIdx hct hlive hnotcl
        hM.minHclosed ?_ ?_ hM.closestStart hM.minHshape hM.closestRange, ?_, rfl, rfl, rfl⟩
      · intro _
        rcases hM.minHshape with hsh | ⟨m, hsh⟩
        · rw [hsh] at hlt
          exact absurd rfl hlt
        · rw [hsh] at hlt ⊢
          rw [JsNum.lt_q] at hlt
          rw [JsNum.le_q, decide_eq_true_iff]
          simp only [decide_eq_true_iff] at hlt
          linarith [not_lt.mp hlt]
      · intro hf hcs
        obtain ⟨a, b⟩ := hM.closestSpec hf hcs
        exact ⟨Or.inr a, b⟩
      · dsimp only
        rw [Function.update_same]

/-- Everything the induction carries through the search loop: the invariant
of the final state, and the claimed shape of the result per status. -/
abbrev LoopPost (env : AStarEnv) (eN : Nat) (r : AResult × LoopState) : Prop :=
  MINV env eN r.2 ∧
  (r.1.status = .success →
    PathWF env.size env.halfSize env.totalTiles env.grid env.startIdx eN
      env.includeStart r.1.path) ∧
  (r.1.status = .partial_path →
    env.failToClosest = true ∧
    ∃ cN : Nat, cN ≠ env.startIdx ∧ cN < env.totalTiles ∧
      r.2.nodeTags cN = env.currentId * 4 + 2 ∧
      PathWF env.size env.halfSize env.totalTiles env.grid env.startIdx cN
        env.includeStart r.1.path ∧
      ∀ i, r.2.nodeTags i = env.currentId * 4 + 2 →
        hMan env.size env.minStep eN cN ≤ hMan env.size env.minStep eN i) ∧
  (r.1.status = .no_path → r.1.path = [] ∧
    (env.failToClosest = true →
      ∀ i, r.2.nodeTags i = env.currentId * 4 + 2 →
        hMan env.size env.minStep eN env.startIdx ≤ hMan env.size env.minStep eN i)) ∧
  (env.signalAborted = false → r.1.status ≠ .aborted) ∧
  (env.failToClosest = true → r.1.status ≠ .timeout)

/-- The post-loop fallback satisfies the carried conclusions. -/
theorem postLoop_post (env : AStarEnv) (eN : Nat) (hE : EnvOK env eN)
    (its : Nat) (s : LoopState) (hM : MINV env eN s) :
    LoopPost env eN (postLoop env its s, s) := by
  rw [postLoop]
  cases hftc : env.failToClosest with
  | true =>
    rw [if_pos rfl]
    by_cases hcs : s.closestNodeIdx = env.startIdx
    · rw [if_pos hcs]
      refine ⟨hM, fun h => PathStatus.noConfusion h, fun h => PathStatus.noConfusion h,
        ?_, fun _ h => PathStatus.noConfusion h, fun _ h => PathStatus.noConfusion h⟩
      intro _
      refine ⟨rfl, fun _ i hi => ?_⟩
      have h2 := hM.minHclosed hftc i hi
      rcases hM.closestStart hftc hcs with hmh | hmh
      · rw [hmh] at h2
        exact absurd h2 (by simp [JsNum.le])
      · rw [hmh, JsNum.le_q, decide_eq_true_iff] at h2
        exact h2
    · rw [if_neg hcs]
      obtain ⟨hcc, hmh⟩ := hM.closestSpec hftc hcs
      refine ⟨hM, fun h => PathStatus.noConfusion h, ?_,
        fun h => PathStatus.noConfusion h, fun _ h => PathStatus.noConfusion h,
        fun _ h => PathStatus.noConfusion h⟩
      intro _
      refine ⟨hftc, s.closestNodeIdx, hcs, hM.closestRange, hcc, ?_, fun i hi => ?_⟩
      · exact reconstruct_wf env eN hE s hM s.closestNodeIdx (by omega)
          hM.closestRange hcs
      · have h2 := hM.minHclosed hftc i hi
        rw [hmh, JsNum.le_q, decide_eq_true_iff] at h2
        exact h2
  | false =>
    rw [if_neg (by simp)]
    by_cases hb : env.maxIterations < its
    · rw [if_pos hb]
      exact ⟨hM, fun h => PathStatus.noConfusion h, fun h => PathStatus.noConfusion h,
        fun h => PathStatus.noConfusion h, fun _ h => PathStatus.noConfusion h,
        fun hf => absurd hf (by rw [hftc]; simp)⟩
    · rw [if_neg hb]
      refine ⟨hM, fun h => PathStatus.noConfusion h, fun h => PathStatus.noConfusion h,
        ?_, fun _ h => PathStatus.noConfusion h, fun _ h => PathStatus.noConfusion h⟩
      intro _
      exact ⟨rfl, fun hf => absurd hf (by rw [hftc]; simp)⟩

/-- The master lemma: from any invariant state, the search loop returns a
result satisfying `LoopPost`. -/
theorem aLoop_master (env : AStarEnv) (eN : Nat) (hE : EnvOK env eN) :
    ∀ (fuel iterations : Nat) (s : LoopState), MINV env eN s →
      LoopPost env eN (aLoop env fuel iterations s) := by
  intro fuel
  induction fuel with
  | zero =>
    intro its s hM
    exact postLoop_post env eN hE its s hM
  | succ fuel ih =>
    intro its s hM
    rw [aLoop]
    cases hemp : s.heap.isEmpty with
    | true =>
      rw [if_pos rfl]
      exact postLoop_post env eN hE its s hM
    | false =>
      rw [if_neg (by simp)]
      dsimp only
      cases hsig : env.signalAborted with
      | true =>
        rw [if_pos rfl]
        refine ⟨hM, fun h => PathStatus.noConfusion h, fun h => PathStatus.noConfusion h,
          fun h => PathStatus.noConfusion h, ?_, fun _ h => PathStatus.noConfusion h⟩
        intro hs
        rw [hs] at hsig
        exact absurd hsig (by simp)
      | false =>
        rw [if_neg (by simp)]
        by_cases hbud : env.maxIterations < its + 1
        · rw [if_pos hbud]
          exact postLoop_post env eN hE (its + 1) s hM
        · rw [if_neg hbud]
          cases hpop : s.heap.pop with
          | none =>
            dsimp only
            exact postLoop_post env eN hE (its + 1) s hM
          | some pr =>
            obtain ⟨current, heap'⟩ := pr
            dsimp only
            have hcur := (pop_mem hpop).1
            have hsub := (pop_mem hpop).2
            obtain ⟨hct, hlivec, ge, gi, hge, hgi, hgele⟩ := hM.heapInv current hcur
            have hM1 : MINV env eN { s with heap := heap' } :=
              popheap_MINV env eN s hM heap' hsub
            by_cases hskip : s.nodeTags current.idx / 4 = env.currentId ∧
                (s.nodeTags current.idx % 4 = 2 ∨
                  current.g.gt (s.gScore current.idx) = true)
            · rw [if_pos hskip]
              exact ih (its + 1) _ hM1
            · rw [if_neg hskip]
              have hnotcl : s.nodeTags current.idx % 4 ≠ 2 :=
                fun h => hskip ⟨hlivec, Or.inl h⟩
              have hgeq : ge = gi := by
                have hngt : ¬(current.g.gt (s.gScore current.idx) = true) :=
                  fun h => hskip ⟨hlivec, Or.inr h⟩
                rw [hge, hgi, JsNum.gt, JsNum.lt_q] at hngt
                simp only [decide_eq_true_iff] at hngt
                exact le_antisymm (not_lt.mp hngt) hgele
              have hclose := minHclose_MINV env eN hE { s with heap := heap' } hM1
                current.idx hct hlivec hnotcl
              rw [hE.hend]
              dsimp only
              by_cases hgoal : current.idx = eN
              · rw [if_pos (by rw [decide_eq_true_iff]; exact hgoal)]
                refine ⟨hclose.1, ?_, fun h => PathStatus.noConfusion h,
                  fun h => PathStatus.noConfusion h, fun _ h => PathStatus.noConfusion h,
                  fun _ h => PathStatus.noConfusion h⟩
                intro _
                rw [← hgoal]
                exact reconstruct_wf env eN hE _ hclose.1 current.idx
                  (by rw [hclose.2.1]; omega) hct
                  (by rw [hgoal]; exact Ne.symm hE.hne)
              · rw [if_neg (show ¬(decide (current.idx = eN) = true) by
                  simp [hgoal])]
                rw [hge]
                have hgsc : (closeStep env { s with heap := heap' } current.idx).gScore
                    current.idx = .q ge := by
                  rw [hclose.2.2.1]
                  dsimp only
                  rw [hgi, hgeq]
                have hMfold := relaxFold_MINV env eN hE current.idx ge hct
                  (neighborList env.size env.totalTiles current.idx)
                  (closeStep env { s with heap := heap' } current.idx)
                  (fun n hn => hn) hclose.1 hclose.2.1 hgsc
                exact ih (its + 1) _ hMfold

/-- The freshly initialised search state satisfies the invariant. -/
theorem init_MINV (env : AStarEnv) (eN : Nat) (hE : EnvOK env eN)
    (g0 : Nat → JsNum) (p0 : Nat → Int) (t0 : Nat → Nat) (hp0 : Heap) (f0 : JsNum)
    (hstale : ∀ i, t0 i / 4 ≠ env.currentId) :
    MINV env eN
      { gScore := Function.update g0 env.startIdx (.q 0),
        parentIndex := Function.update p0 env.startIdx (-1),
        nodeTags := Function.update t0 env.startIdx (env.currentId * 4 + 1),
        heap := (Heap.clear hp0).push env.startIdx f0 (.q 0),
        closestNodeIdx := env.startIdx, minH := .inf } := by
  refine ⟨?_, ?_, ?_, ?_, ?_, ?_, Or.inl rfl, hE.hstart, ?_, ?_, fun _ _ => Or.inl rfl⟩
  · dsimp only
    rw [Function.update_same]
    omega
  · dsimp only
    rw [Function.update_same]
  · dsimp only
    rw [Function.update_same]
  · intro i hi
    dsimp only at hi ⊢
    by_cases his : i = env.startIdx
    · subst his
      exact ⟨hE.hstart, 0, Function.update_same _ _ _, le_refl 0⟩
    · rw [Function.update_noteq his] at hi
      exact absurd hi (hstale i)
  · intro i hi his
    dsimp only at hi
    rw [Function.update_noteq his] at hi
    exact absurd hi (hstale i)
  · intro en hen
    dsimp only at hen ⊢
    rcases push_mem en hen with hold | hnew
    · rw [Heap.clear] at hold
      simp at hold
    · subst hnew
      dsimp only
      refine ⟨hE.hstart, ?_, 0, 0, rfl, Function.update_same _ _ _, le_refl 0⟩
      rw [Function.update_same]
      omega
  · intro _ i hi
    dsimp only at hi
    by_cases his : i = env.startIdx
    · subst his
      rw [Function.update_same] at hi
      omega
    · rw [Function.update_noteq his] at hi
      exact absurd (show t0 i / 4 = env.currentId by omega) (hstale i)
  · intro _ h
    exact absurd rfl h

/-- The core of `calculateAStar` after the generation bump: the loop on a
fresh state satisfies `LoopPost`. -/
theorem calcCore_post (st : PFState) (startIdx eN maxIter : Nat) (hW : ℚ)
    (incl ftc : Bool) (sig : Bool) (cid : Nat) (bufs0 : Buffers) (f0 : JsNum)
    (hstale : ∀ i, bufs0.nodeTags i / 4 ≠ cid)
    (htot : st.totalTiles = st.size * st.size)
    (hlen : st.grid.length = st.totalTiles)
    (hsz : 0 < st.size)
    (hstart : startIdx < st.totalTiles)
    (heN : eN < st.totalTiles)
    (hne : startIdx ≠ eN)
    (hgrid : GridOK st.grid) :
    LoopPost
      { size := st.size, totalTiles := st.totalTiles, halfSize := st.halfSize,
        grid := st.grid, minStep := st.minStepCost, startIdx := startIdx,
        endIdx := some eN, maxIterations := maxIter, heuristicWeight := hW,
        includeStart := incl, failToClosest := ftc, currentId := cid,
        signalAborted := sig, exq := .q ((eN % st.size : ℕ) : ℚ),
        ezq := .q ((eN / st.size : ℕ) : ℚ), sgx := st.startGridX,
        sgz := st.startGridZ,
        dx1 := (JsNum.q ((eN % st.size : ℕ) : ℚ)).sub st.startGridX,
        dz1 := (JsNum.q ((eN / st.size : ℕ) : ℚ)).sub st.startGridZ } eN
      (aLoop
        { size := st.size, totalTiles := st.totalTiles, halfSize := st.halfSize,
          grid := st.grid, minStep := st.minStepCost, startIdx := startIdx,
          endIdx := some eN, maxIterations := maxIter, heuristicWeight := hW,
          includeStart := incl, failToClosest := ftc, currentId := cid,
          signalAborted := sig, exq := .q ((eN % st.size : ℕ) : ℚ),
          ezq := .q ((eN / st.size : ℕ) : ℚ), sgx := st.startGridX,
          sgz := st.startGridZ,
          dx1 := (JsNum.q ((eN % st.size : ℕ) : ℚ)).sub st.startGridX,
          dz1 := (JsNum.q ((eN / st.size : ℕ) : ℚ)).sub st.startGridZ }
        (maxIter + 2) 0
        { gScore := Function.update bufs0.gScore startIdx (.q 0),
          parentIndex := Function.update bufs0.parentIndex startIdx (-1),
          nodeTags := Function.update bufs0.nodeTags startIdx (cid * 4 + 1),
          heap := (bufs0.heap.clear).push startIdx f0 (.q 0),
          closestNodeIdx := startIdx, minH := .inf }) := by
  have hE : EnvOK
      { size := st.size, totalTiles := st.totalTiles, halfSize := st.halfSize,
        grid := st.grid, minStep := st.minStepCost, startIdx := startIdx,
        endIdx := some eN, maxIterations := maxIter, heuristicWeight := hW,
        includeStart := incl, failToClosest := ftc, currentId := cid,
        signalAborted := sig, exq := .q ((eN % st.size : ℕ) : ℚ),
        ezq := .q ((eN / st.size : ℕ) : ℚ), sgx := st.startGridX,
        sgz := st.startGridZ,
        dx1 := (JsNum.q ((eN % st.size : ℕ) : ℚ)).sub st.startGridX,
        dz1 := (JsNum.q ((eN / st.size : ℕ) : ℚ)).sub st.startGridZ } eN :=
    ⟨rfl, heN, hstart, hne, htot, hlen, hsz, hgrid, rfl, rfl⟩
  exact aLoop_master _ eN hE (maxIter + 2) 0 _
    (init_MINV _ eN hE bufs0.gScore bufs0.parentIndex bufs0.nodeTags bufs0.heap f0 hstale)

/-- `calculateAStar` on a valid goal cell: the returned result and final
buffers satisfy the per-status conclusions of the loop analysis. -/
theorem calculateAStar_post (st : PFState) (startIdx eN maxIter : Nat) (hW : ℚ)
    (incl ftc : Bool) (bufs : Buffers) (sig : Bool)
    (hfresh : ∀ i, bufs.nodeTags i / 4 ≤ st.globalSearchId)
    (htot : st.totalTiles = st.size * st.size)
    (hlen : st.grid.length = st.totalTiles)
    (hsz : 0 < st.size)
    (hstart : startIdx < st.totalTiles)
    (heN : eN < st.totalTiles)
    (hne : startIdx ≠ eN)
    (hgrid : GridOK st.grid) :
    ((calculateAStar st startIdx (some eN) maxIter hW incl ftc bufs sig).1.status =
        .success →
      PathWF st.size st.halfSize st.totalTiles st.grid startIdx eN incl
        (calculateAStar st startIdx (some eN) maxIter hW incl ftc bufs sig).1.path) ∧
    ((calculateAStar st startIdx (some eN) maxIter hW incl ftc bufs sig).1.status =
        .partial_path →
      ftc = true ∧
      ∃ cN : Nat, cN ≠ startIdx ∧ cN < st.totalTiles ∧
        (calculateAStar st startIdx (some eN) maxIter hW incl ftc bufs sig).2.2.nodeTags
            cN =
          (calculateAStar st startIdx (some eN) maxIter hW incl ftc
              bufs sig).2.1.globalSearchId * 4 + 2 ∧
        PathWF st.size st.halfSize st.totalTiles st.grid startIdx cN incl
          (calculateAStar st startIdx (some eN) maxIter hW incl ftc bufs sig).1.path ∧
        ∀ i, (calculateAStar st startIdx (some eN) maxIter hW incl ftc
              bufs sig).2.2.nodeTags i =
            (calculateAStar st startIdx (some eN) maxIter hW incl ftc
              bufs sig).2.1.globalSearchId * 4 + 2 →
          hMan st.size st.minStepCost eN cN ≤ hMan st.size st.minStepCost eN i) ∧
    ((calculateAStar st startIdx (some eN) maxIter hW incl ftc bufs sig).1.status =
        .no_path →
      (calculateAStar st startIdx (some eN) maxIter hW incl ftc bufs sig).1.path = [] ∧
      (ftc = true →
        ∀ i, (calculateAStar st startIdx (some eN) maxIter hW incl ftc
              bufs sig).2.2.nodeTags i =
            (calculateAStar st startIdx (some eN) maxIter hW incl ftc
              bufs sig).2.1.globalSearchId * 4 + 2 →
          hMan st.size st.minStepCost eN startIdx ≤
            hMan st.size st.minStepCost eN i)) ∧
    (sig = false →
      (calculateAStar st startIdx (some eN) maxIter hW incl ftc bufs sig).1.status ≠
        .aborted) ∧
    (ftc = true →
      (calculateAStar st startIdx (some eN) maxIter hW incl ftc bufs sig).1.status ≠
        .timeout) := by
  rw [calculateAStar]
  dsimp only
  by_cases hreset : MAX_SEARCH_ID ≤ st.globalSearchId + 1
  · rw [if_pos hreset, if_pos hreset]
    have hpost := calcCore_post st startIdx eN maxIter hW incl ftc sig 1
      { bufs with
          nodeTags := fun _ => 0
          gScore := fun _ => JsNum.inf
          parentIndex := fun _ => -1 }
      (((((JsNum.q ((startIdx % st.size : ℕ) : ℚ)).sub
          (.q ((eN % st.size : ℕ) : ℚ))).abs.add
        (((JsNum.q ((startIdx / st.size : ℕ) : ℚ)).sub
          (.q ((eN / st.size : ℕ) : ℚ)))).abs).mul (.q st.minStepCost)).mul (.q hW))
      (fun i => by simp) htot hlen hsz hstart heN hne hgrid
    exact ⟨hpost.2.1, hpost.2.2.1, hpost.2.2.2.1, hpost.2.2.2.2.1, hpost.2.2.2.2.2⟩
  · rw [if_neg hreset, if_neg hreset]
    have hpost := calcCore_post st startIdx eN maxIter hW incl ftc sig
      (st.globalSearchId + 1) bufs
      (((((JsNum.q ((startIdx % st.size : ℕ) : ℚ)).sub
          (.q ((eN % st.size : ℕ) : ℚ))).abs.add
        (((JsNum.q ((startIdx / st.size : ℕ) : ℚ)).sub
          (.q ((eN / st.size : ℕ) : ℚ)))).abs).mul (.q st.minStepCost)).mul (.q hW))
      (fun i => by have := hfresh i; omega) htot hlen hsz hstart heN hne hgrid
    exact ⟨hpost.2.1, hpost.2.2.1, hpost.2.2.2.1, hpost.2.2.2.2.1, hpost.2.2.2.2.2⟩

/-- **C9.**  With `failToClosest` and no abort signal, `calculateAStar` on a
valid goal cell returns `success`, `partial_path` or `no_path`; a
`partial_path` result carries a non-empty path ending at an expanded node,
distinct from the start, whose Manhattan distance to the goal is minimal
among all expanded nodes; a `no_path` result carries an empty path and
means no expanded node came strictly closer to the goal than the start. -/
theorem calculateAStar_failToClosest (st : PFState) (startIdx eN maxIter : Nat)
    (hW : ℚ) (incl : Bool) (bufs : Buffers)
    (hfresh : ∀ i, bufs.nodeTags i / 4 ≤ st.globalSearchId)
    (htot : st.totalTiles = st.size * st.size)
    (hlen : st.grid.length = st.totalTiles)
    (hsz : 0 < st.size)
    (hstart : startIdx < st.totalTiles)
    (heN : eN < st.totalTiles)
    (hne : startIdx ≠ eN)
    (hgrid : GridOK st.grid) :
    ((calculateAStar st startIdx (some eN) maxIter hW incl true bufs false).1.status =
        .success ∨
     (calculateAStar st startIdx (some eN) maxIter hW incl true bufs false).1.status =
        .partial_path ∨
     (calculateAStar st startIdx (some eN) maxIter hW incl true bufs false).1.status =
        .no_path) ∧
    ((calculateAStar st startIdx (some eN) maxIter hW incl true bufs false).1.status =
        .partial_path →
      ∃ cN : Nat, cN ≠ startIdx ∧ cN < st.totalTiles ∧
        (calculateAStar st startIdx (some eN) maxIter hW incl true
            bufs false).1.path ≠ [] ∧
        (calculateAStar st startIdx (some eN) maxIter hW incl true
            bufs false).1.path.getLast? = some (mkCoord st.size st.halfSize cN) ∧
        (calculateAStar st startIdx (some eN) maxIter hW incl true
            bufs false).2.2.nodeTags cN =
          (calculateAStar st startIdx (some eN) maxIter hW incl true
            bufs false).2.1.globalSearchId * 4 + 2 ∧
        ∀ i, (calculateAStar st startIdx (some eN) maxIter hW incl true
              bufs false).2.2.nodeTags i =
            (calculateAStar st startIdx (some eN) maxIter hW incl true
              bufs false).2.1.globalSearchId * 4 + 2 →
          hMan st.size st.minStepCost eN cN ≤ hMan st.size st.minStepCost eN i) ∧
    ((calculateAStar st startIdx (some eN) maxIter hW incl true bufs false).1.status =
        .no_path →
      (calculateAStar st startIdx (some eN) maxIter hW incl true bufs false).1.path =
        [] ∧
      ∀ i, (calculateAStar st startIdx (some eN) maxIter hW incl true
            bufs false).2.2.nodeTags i =
          (calculateAStar st startIdx (some eN) maxIter hW incl true
            bufs false).2.1.globalSearchId * 4 + 2 →
        hMan st.size st.minStepCost eN startIdx ≤ hMan st.size st.minStepCost eN i) := by
  have hpost := calculateAStar_post st startIdx eN maxIter hW incl true bufs false
    hfresh htot hlen hsz hstart heN hne hgrid
  refine ⟨?_, ?_, ?_⟩
  · cases hst : (calculateAStar st startIdx (some eN) maxIter hW incl true
        bufs false).1.status with
    | success => exact Or.inl rfl
    | partial_path => exact Or.inr (Or.inl rfl)
    | no_path => exact Or.inr (Or.inr rfl)
    | invalid_args =>
      exact absurd hst (calculateAStar_status_ne_invalid _ _ _ _ _ _ _ _ _)
    | aborted => exact absurd hst (hpost.2.2.2.1 rfl)
    | timeout => exact absurd hst (hpost.2.2.2.2 rfl)
  · intro hp
    obtain ⟨-, cN, h1, h2, h3, hwf, hmin⟩ := hpost.2.1 hp
    rw [PathWF] at hwf
    obtain ⟨hne2, hlast, -, -, -, -, -, -⟩ := hwf
    exact ⟨cN, h1, h2, hne2, hlast, h3, hmin⟩
  · intro hnp
    obtain ⟨hpath, hmin⟩ := hpost.2.2.1 hnp
    exact ⟨hpath, hmin rfl⟩

theorem postLoop_status_ne_success (env : AStarEnv) (its : Nat) (s : LoopState) :
    (postLoop env its s).status ≠ .success := by
  rw [postLoop]
  split
  · split <;> simp
  · split <;> simp

/-- With a `NaN` goal index the search can never report `success`. -/
theorem aLoop_none_ne_success (env : AStarEnv) (hend : env.endIdx = none) :
    ∀ (fuel iterations : Nat) (s : LoopState),
      (aLoop env fuel iterations s).1.status ≠ .success := by
  intro fuel
  induction fuel with
  | zero =>
    intro its s
    exact postLoop_status_ne_success env its s
  | succ fuel ih =>
    intro its s
    simp only [aLoop, hend]
    split
    · exact postLoop_status_ne_success env _ _
    · split
      · simp
      · split
        · exact postLoop_status_ne_success env _ _
        · split
          · exact postLoop_status_ne_success env _ _
          · split
            · exact ih _ _
            · split
              · simp_all
              · exact ih _ _

theorem calculateAStar_none_ne_success (st : PFState) (startIdx : Nat)
    (maxIterations : Nat) (hW : ℚ) (incl fail : Bool) (bufs : Buffers)
    (sig : Bool) :
    (calculateAStar st startIdx none maxIterations hW incl fail bufs sig).1.status ≠
      .success := by
  simp only [calculateAStar]
  exact aLoop_none_ne_success _ rfl _ _ _

theorem acquireBuffers_fields (st : PFState) :
    (acquireBuffers st).2.size = st.size ∧
    (acquireBuffers st).2.halfSize = st.halfSize ∧
    (acquireBuffers st).2.totalTiles = st.totalTiles ∧
    (acquireBuffers st).2.grid = st.grid ∧
    (acquireBuffers st).2.minStepCost = st.minStepCost ∧
    (acquireBuffers st).2.globalSearchId = st.globalSearchId ∧
    (acquireBuffers st).2.defaultMaxIterations = st.defaultMaxIterations := by
  rw [acquireBuffers]
  dsimp only
  cases hbp : st.bufferPool with
  | nil => exact ⟨rfl, rfl, rfl, rfl, rfl, rfl, rfl⟩
  | cons b bs => exact ⟨rfl, rfl, rfl, rfl, rfl, rfl, rfl⟩

/-- Buffers taken from a fresh pool carry only stale generation tags. -/
theorem acquire_fresh (st : PFState)
    (hpool : ∀ b ∈ st.bufferPool, ∀ i, b.nodeTags i / 4 ≤ st.globalSearchId) :
    ∀ i, (acquireBuffers st).1.nodeTags i / 4 ≤ st.globalSearchId := by
  intro i
  rw [acquireBuffers]
  dsimp only
  cases hbp : st.bufferPool with
  | nil => simp [createBuffers]
  | cons b bs =>
    dsimp only
    have hmem : (b :: bs).getLastD b ∈ st.bufferPool := by
      rw [hbp]
      have : (b :: bs).getLastD b = (b :: bs).getLast (by simp) := by
        rw [List.getLastD_eq_getLast?, List.getLast?_eq_getLast _ (by simp)]
        rfl
      rw [this]
      exact List.getLast_mem _
    exact hpool _ hmem i

/-- Symbolic execution of `findPathSync` down to the engine call: under a
cache miss with no pending abort, valid distinct indices, a traversable
start cell and a passing end-cell precheck, the returned path and status
are those of the inner `calculateAStar` call, made on a state and buffer
set with the recorded properties. -/
theorem findPathSync_run (st : PFState) (s e : Coordinates) (o : PathOptions)
    (hpool : ∀ b ∈ st.bufferPool, ∀ i, b.nodeTags i / 4 ≤ st.globalSearchId)
    (hcache : cacheProbe st (getPathKey st s e o) = none)
    (hab : o.abortedNow = false)
    (hidx : ((toIndex st s.x s.z).seq (.q (-1)) ||
      (toIndex st e.x e.z).seq (.q (-1))) = false)
    (hne : (toIndex st s.x s.z).seq (toIndex st e.x e.z) = false)
    {sN : Nat} (hcs : canonIdx st.grid.length (toIndex st s.x s.z) = some sN)
    (hsf : JsNum.isFiniteU (st.grid.get? sN) = true)
    (hfc : (!(o.failToClosest.getD false) &&
      !(JsNum.isFiniteU ((canonIdx st.grid.length (toIndex st e.x e.z)).bind
        fun n => st.grid.get? n))) = false) :
    ∃ (st2 : PFState) (bufs : Buffers),
      st2.size = st.size ∧ st2.halfSize = st.halfSize ∧
      st2.totalTiles = st.totalTiles ∧ st2.grid = st.grid ∧
      st2.minStepCost = st.minStepCost ∧
      st2.globalSearchId = st.globalSearchId ∧
      st2.defaultMaxIterations = st.defaultMaxIterations ∧
      (∀ i, bufs.nodeTags i / 4 ≤ st2.globalSearchId) ∧
      (findPathSync st s e o).1.path =
        (calculateAStar st2 sN (canonIdx st.grid.length (toIndex st e.x e.z))
          (min (o.maxIterations.getD st2.defaultMaxIterations)
            (max (st2.totalTiles * 2) 50000))
          (o.heuristicWeight.getD 1) (o.includeStartNode.getD false)
          (o.failToClosest.getD false) bufs false).1.path ∧
      (findPathSync st s e o).1.status =
        (calculateAStar st2 sN (canonIdx st.grid.length (toIndex st e.x e.z))
          (min (o.maxIterations.getD st2.defaultMaxIterations)
            (max (st2.totalTiles * 2) 50000))
          (o.heuristicWeight.getD 1) (o.includeStartNode.getD false)
          (o.failToClosest.getD false) bufs false).1.status := by
  let base : PFState := { st with startGridX := toGridX st s.x, startGridZ := toGridZ st s.z, cacheMisses := st.cacheMisses + 1 }
  refine ⟨(acquireBuffers base).2, (acquireBuffers base).1,
    (acquireBuffers_fields _).1, (acquireBuffers_fields _).2.1,
    (acquireBuffers_fields _).2.2.1, (acquireBuffers_fields _).2.2.2.1,
    (acquireBuffers_fields _).2.2.2.2.1, (acquireBuffers_fields _).2.2.2.2.2.1,
    (acquireBuffers_fields _).2.2.2.2.2.2, ?_, ?_, ?_⟩
  · intro i
    rw [(acquireBuffers_fields _).2.2.2.2.2.1]
    exact acquire_fresh base (fun b hb j => hpool b hb j) i
  · simp only [findPathSync, hcache, hab, Bool.false_eq_true, if_false, hidx,
      hne, hcs, hsf, Bool.not_true, hfc]
  · simp only [findPathSync, hcache, hab, Bool.false_eq_true, if_false, hidx,
      hne, hcs, hsf, Bool.not_true, hfc]

/-- **C10 (amended).**  A non-cached `success` whose request does not hit
the start==end short-circuit comes from the A* engine, and its path is a
well-formed route: non-empty, ending at the requested end cell, stepping
through 4-adjacent in-range cells of finite positive weight (the start cell
included — `findPathSync` checks it before searching), containing the start
cell exactly when `includeStartNode` is set, and otherwise beginning at a
4-neighbor of the start cell.  (The unrestricted claim is false: see
`findPathSync_degenerate_obstacle_success`.) -/
theorem findPathSync_success_wf (st : PFState) (s e : Coordinates) (o : PathOptions)
    (hpool : ∀ b ∈ st.bufferPool, ∀ i, b.nodeTags i / 4 ≤ st.globalSearchId)
    (htot : st.totalTiles = st.size * st.size)
    (hlen : st.grid.length = st.totalTiles)
    (hsz : 0 < st.size)
    (hgrid : GridOK st.grid)
    (hcache : cacheProbe st (getPathKey st s e o) = none)
    (hne : (toIndex st s.x s.z).seq (toIndex st e.x e.z) = false)
    (hres : (findPathSync st s e o).1.status = .success) :
    ∃ sN eN : Nat,
      canonIdx st.grid.length (toIndex st s.x s.z) = some sN ∧
      canonIdx st.grid.length (toIndex st e.x e.z) = some eN ∧
      sN ≠ eN ∧
      (∃ w : ℚ, st.grid.getD sN .nan = .q w ∧ 0 < w) ∧
      PathWF st.size st.halfSize st.totalTiles st.grid sN eN
        (o.includeStartNode.getD false) (findPathSync st s e o).1.path := by
  by_cases habt : o.abortedNow = true
  · simp [findPathSync, hcache, habt] at hres
  · rw [Bool.not_eq_true] at habt
    cases hidx : ((toIndex st s.x s.z).seq (.q (-1)) ||
        (toIndex st e.x e.z).seq (.q (-1))) with
    | true => simp [findPathSync, hcache, habt, hidx] at hres
    | false =>
      cases hcs : canonIdx st.grid.length (toIndex st s.x s.z) with
      | none => simp [findPathSync, hcache, habt, hidx, hne, hcs] at hres
      | some sN =>
        cases hsf : JsNum.isFiniteU (st.grid.get? sN) with
        | false =>
          rw [List.get?_eq_getElem?] at hsf
          simp [findPathSync, hcache, habt, hidx, hne, hcs, hsf] at hres
        | true =>
          cases hfc : (!(o.failToClosest.getD false) &&
              !(JsNum.isFiniteU ((canonIdx st.grid.length
                (toIndex st e.x e.z)).bind fun n => st.grid.get? n))) with
          | true =>
            rw [Bool.and_eq_true, Bool.not_eq_true', Bool.not_eq_true'] at hfc
            have hsf2 := hsf
            rw [List.get?_eq_getElem?] at hsf2
            simp only [List.get?_eq_getElem?] at hfc
            simp [findPathSync, hcache, habt, hidx, hne, hcs, hsf2, hfc.1,
              hfc.2] at hres
          | false =>
            obtain ⟨st2, bufs, h1, h2, h3, h4, h5, h6, h7, hfr, hpath, hstat⟩ :=
              findPathSync_run st s e o hpool hcache habt hidx hne hcs hsf hfc
            rw [hstat] at hres
            cases hce : canonIdx st.grid.length (toIndex st e.x e.z) with
            | none =>
              rw [hce] at hres
              exact absurd hres (calculateAStar_none_ne_success _ _ _ _ _ _ _ _)
            | some eN =>
              rw [hce] at hres hpath
              obtain ⟨hsq, hslt⟩ := canonIdx_some hcs
              obtain ⟨heq2, helt⟩ := canonIdx_some hce
              have hsne : sN ≠ eN := by
                intro hse
                rw [hsq, heq2, hse] at hne
                simp [JsNum.seq] at hne
              have hpost := calculateAStar_post st2 sN eN
                (min (o.maxIterations.getD st2.defaultMaxIterations)
                  (max (st2.totalTiles * 2) 50000))
                (o.heuristicWeight.getD 1) (o.includeStartNode.getD false)
                (o.failToClosest.getD false) bufs false
                hfr (by rw [h3, h1]; exact htot) (by rw [h4, h3]; exact hlen)
                (by rw [h1]; exact hsz) (by rw [h3, ← hlen]; exact hslt)
                (by rw [h3, ← hlen]; exact helt) hsne (by rw [h4]; exact hgrid)
              have hwf := hpost.1 hres
              have hsw : ∃ w : ℚ, st.grid.getD sN .nan = .q w ∧ 0 < w := by
                have hlt2 : sN < st.grid.length := hslt
                rw [List.get?_eq_getElem?, List.getElem?_eq_getElem hlt2] at hsf
                simp only [JsNum.isFiniteU] at hsf
                obtain ⟨w, hw⟩ := (JsNum.isFinite_iff _).mp hsf
                have hok := hgrid _ (List.getElem_mem hlt2)
                rw [hw] at hok
                simp only [wOK] at hok
                refine ⟨w, ?_, of_decide_eq_true hok⟩
                rw [List.getD_eq_getElem?_getD, List.getElem?_eq_getElem hlt2, hw]
                rfl
              refine ⟨sN, eN, rfl, rfl, hsne, hsw, ?_⟩
              rw [← h1, ← h2, ← h3, ← h4, hpath]
              exact hwf

/-- A 3×3 demo map whose center cell is water (an obstacle). -/
def tilesDemoWater : List TileD :=
  (List.range 3).flatMap fun i =>
    (List.range 3).map fun j =>
      { x := .q ((i : ℤ) - 1), z := .q ((j : ℤ) - 1),
        type := if i = 1 ∧ j = 1 then TileT.water else TileT.grass,
        occupied := false }

/-- The service synchronised with the water-center map. -/
def stDemoWater : PFState := syncWithStore initService tilesDemoWater 3

/-- **C10 counterexample.**  Requesting a path from the obstacle (water)
center cell to itself with `includeStartNode` hits the start==end
short-circuit before any traversability check, so `findPathSync` returns
`success` with the one-cell path `[(0,0)]` even though that cell's
traversal weight is `Infinity` — contradicting the claim that every cell
of a successful path has finite weight at search time. -/
theorem findPathSync_degenerate_obstacle_success :
    (findPathSync stDemoWater ⟨.q 0, .q 0⟩ ⟨.q 0, .q 0⟩
      { includeStartNode := some true }).1.status = .success ∧
    (findPathSync stDemoWater ⟨.q 0, .q 0⟩ ⟨.q 0, .q 0⟩
      { includeStartNode := some true }).1.path = [⟨.q 0, .q 0⟩] ∧
    stDemoWater.grid.getD 4 .nan = .inf ∧
    isWalkable stDemoWater (.q 0) (.q 0) = false := by
  refine ⟨?_, ?_, ?_, ?_⟩ <;> with_unfolding_all decide

/-- Witness for C9: on the 3×3 all-grass map from corner to corner with a
comfortable budget the theorem applies, and its trichotomy holds (here the
search in fact succeeds). -/
theorem calculateAStar_failToClosest_witness :
    GridOK stDemo.grid ∧ stDemo.totalTiles = stDemo.size * stDemo.size ∧
    ((calculateAStar stDemo 0 (some 8) 100 1 false true (createBuffers 9)
        false).1.status = .success ∨
     (calculateAStar stDemo 0 (some 8) 100 1 false true (createBuffers 9)
        false).1.status = .partial_path ∨
     (calculateAStar stDemo 0 (some 8) 100 1 false true (createBuffers 9)
        false).1.status = .no_path) :=
  ⟨by unfold GridOK; with_unfolding_all decide, by with_unfolding_all decide,
   (calculateAStar_failToClosest stDemo 0 8 100 1 false (createBuffers 9)
     (fun _ => by show (0 : ℕ) / 4 ≤ stDemo.globalSearchId; exact Nat.zero_le _)
     (by with_unfolding_all decide) (by with_unfolding_all decide)
     (by with_unfolding_all decide) (by with_unfolding_all decide)
     (by with_unfolding_all decide) (by decide)
     (by unfold GridOK; with_unfolding_all decide)).1⟩

/-- Witness for the amended C10: the corner-to-corner search on the 3×3
all-grass map returns `success`, and the theorem yields the full
well-formedness bundle for its path. -/
theorem findPathSync_success_wf_witness :
    (findPathSync stDemo ⟨.q (-1), .q (-1)⟩ ⟨.q 1, .q 1⟩ {}).1.status = .success ∧
    ∃ sN eN : Nat,
      canonIdx stDemo.grid.length (toIndex stDemo (.q (-1)) (.q (-1))) = some sN ∧
      canonIdx stDemo.grid.length (toIndex stDemo (.q 1) (.q 1)) = some eN ∧
      sN ≠ eN ∧
      (∃ w : ℚ, stDemo.grid.getD sN .nan = .q w ∧ 0 < w) ∧
      PathWF stDemo.size stDemo.halfSize stDemo.totalTiles stDemo.grid sN eN
        (({} : PathOptions).includeStartNode.getD false)
        (findPathSync stDemo ⟨.q (-1), .q (-1)⟩ ⟨.q 1, .q 1⟩ {}).1.path :=
  ⟨by with_unfolding_all decide,
   findPathSync_success_wf stDemo ⟨.q (-1), .q (-1)⟩ ⟨.q 1, .q 1⟩ {}
     (by
       intro b hb i
       rw [List.eq_nil_of_length_eq_zero
         (show stDemo.bufferPool.length = 0 from by with_unfolding_all decide)] at hb
       cases hb)
     (by with_unfolding_all decide) (by with_unfolding_all decide)
     (by with_unfolding_all decide)
     (by unfold GridOK; with_unfolding_all decide)
     (by with_unfolding_all decide) (by with_unfolding_all decide)
     (by with_unfolding_all decide)⟩
